import Mathlib

/-!
Verification of the iBench proteome-mutation and validation engine.

The Python sources (`ibench/add_seqs.py`, `ibench/check_presence.py`,
`ibench/modify_db.py`, `ibench/validate_assignments.py`) are shallowly
embedded below.  Protein and peptide sequences are `List Char`; Python's
`random` / `np.random` draws are modelled by an explicit stream of natural
numbers (`Rng`) threaded through each operation, so every theorem about a
randomised operation quantifies over (or fixes) the whole stream of draws.
Fallible Python code (exceptions) is modelled with `Except String`.
-/

namespace IBench

/-- The 20-letter amino-acid alphabet `ACDEFGHKLMNPQRSTVYW` from
`ibench/constants.py` (`AMINO_ACIDS`). -/
def AMINO_ACIDS : List Char :=
  ['A', 'C', 'D', 'E', 'F', 'G', 'H', 'K', 'L', 'M', 'N', 'P', 'Q', 'R', 'S', 'T', 'V', 'Y', 'W']

/-- Stratum key `'canonical'` from `ibench/constants.py`. -/
def CANONICAL_KEY : String := "canonical"

/-- Stratum key `'cisspliced'` from `ibench/constants.py`. -/
def CISSPLICED_KEY : String := "cisspliced"

/-- Stratum key `'transspliced'` from `ibench/constants.py`. -/
def TRANSPLICED_KEY : String := "transspliced"

/-- Modelled from the spec: `TRAPPING_KEY` is imported by
`ibench/modify_db.py` from `ibench.constants` but no definition of it exists
in the source tree; it names the stratum of trapping peptides mentioned in
the docstring of `remove_matches`.  Its concrete string value is irrelevant
to the claims (no embedding record is ever created with this stratum). -/
def TRAPPING_KEY : String := "trapping"

/-- The string `'trypsin'` used for enzyme dispatch. -/
def trypsinStr : String := "trypsin"

/-! ## Random draws

Python's `random` module (and `np.random`) is modelled as an infinite stream
of natural numbers together with a cursor; each primitive draw consumes one
stream element and reduces it into the required range. -/

/-- An explicit pseudo-random source: a stream of raw draws and a cursor. -/
structure Rng where
  stream : Nat → Nat
  k : Nat

/-- Consume one raw draw. -/
def Rng.next (r : Rng) : Nat × Rng :=
  (r.stream r.k, { r with k := r.k + 1 })

/-- `random.choice(l)`: uniform element of a list; raises `IndexError` on an
empty sequence.  The drawn raw value is reduced modulo the length. -/
def pyChoice {α : Type} (l : List α) (r : Rng) : Except String (α × Rng) :=
  match l with
  | [] => .error ("IndexError: Cannot choose from an empty sequence")
  | x :: xs =>
    let (d, r') := r.next
    .ok ((x :: xs).getD (d % (x :: xs).length) x, r')

/-- `random.randint(a, b)`: uniform integer in `[a, b]`; raises `ValueError`
when the range is empty (`a > b`).  Callers in iBench only reach negative
Python bounds when the truncated `Nat` bound is also below `a`, so `Nat`
arguments model every call site faithfully. -/
def pyRandint (a b : Nat) (r : Rng) : Except String (Nat × Rng) :=
  if a > b then .error ("ValueError: empty range for randrange()")
  else
    let (d, r') := r.next
    .ok (a + d % (b - a + 1), r')

/-- `''.join([random.choice(AMINO_ACIDS) for _ in range(n)])`: a random
filler string of length `n` over the amino-acid alphabet. -/
def randFiller : Nat → Rng → (List Char × Rng)
  | 0, r => ([], r)
  | n + 1, r =>
    let (d, r') := r.next
    let c := AMINO_ACIDS.getD (d % AMINO_ACIDS.length) 'A'
    let (rest, r'') := randFiller n r'
    (c :: rest, r'')

/-! ## Substring machinery

`sub in s` (Python) and `re.finditer` (non-overlapping, left-to-right
literal matches) on `List Char`. -/

/-- Python's `sub in s`: contiguous-substring test. -/
def isSubstringOf (sub : List Char) : List Char → Bool
  | [] => sub.isPrefixOf []
  | c :: t => sub.isPrefixOf (c :: t) || isSubstringOf sub t

/-- Start positions of the matches found by `re.finditer(sub, s)`: a
left-to-right scan recording non-overlapping literal occurrences (an empty
pattern matches at every position, advancing by one).  The scan consumes at
least one character per step, so it is driven by a fuel argument that the
wrapper `finditer` sets to the length of the scanned list; the
fuel-exhausted branch is then unreachable. -/
def finditerAux (sub : List Char) : Nat → List Char → Nat → List Nat
  | _, [], pos => if sub = [] then [pos] else []
  | 0, _ :: _, _ => []
  | fuel + 1, c :: t, pos =>
    if sub ≠ [] ∧ sub.isPrefixOf (c :: t) then
      pos :: finditerAux sub fuel ((c :: t).drop sub.length) (pos + sub.length)
    else if sub = [] then
      pos :: finditerAux sub fuel t (pos + 1)
    else
      finditerAux sub fuel t (pos + 1)

/-- All `re.finditer` match start positions of `sub` in `s`. -/
def finditer (sub s : List Char) : List Nat :=
  finditerAux sub s.length s 0

/-- Python's `s.replace(sub, fill)`: replace every non-overlapping
occurrence of `sub` in `s` (scanning left to right) by `fill`; an empty
pattern inserts `fill` between all characters.  Fuel-driven like
`finditerAux`; the wrapper `pyReplace` supplies fuel equal to the length of
`s`, making the fuel-exhausted branch unreachable. -/
def pyReplaceAux (sub fill : List Char) : Nat → List Char → List Char
  | _, [] => if sub = [] then fill else []
  | 0, c :: t => c :: t
  | fuel + 1, c :: t =>
    if sub ≠ [] ∧ sub.isPrefixOf (c :: t) then
      fill ++ pyReplaceAux sub fill fuel ((c :: t).drop sub.length)
    else if sub = [] then
      fill ++ c :: pyReplaceAux sub fill fuel t
    else
      c :: pyReplaceAux sub fill fuel t

/-- Python's `s.replace(sub, fill)`. -/
def pyReplace (s sub fill : List Char) : List Char :=
  pyReplaceAux sub fill s.length s

/-! ## `ibench/check_presence.py` -/

/-- The per-position-pair test of `check_cis_present` /
`find_cis_matched_splice_reactants`: with `diff = f1 - f2`, if `diff < 0`
require non-overlap `f1 + len1 < f2` and `|diff| ≤ maxInt + len1`, else
require `f2 + len2 < f1` and `|diff| ≤ maxInt + len2`. -/
def cisPairOk (maxInt len1 len2 f1 f2 : Nat) : Bool :=
  if f1 < f2 then
    if f1 + len1 ≥ f2 then false else f2 - f1 ≤ maxInt + len1
  else
    if f2 + len2 ≥ f1 then false else f1 - f2 ≤ maxInt + len2

/-- `check_cis_present(protein, sr_1, sr_2, max_intervening)` from
`ibench/check_presence.py`: both reactants must occur, and some pair of
`re.finditer` start positions must satisfy the directional gap bound. -/
def check_cis_present (protein sr1 sr2 : List Char) (maxInt : Nat) : Bool :=
  if isSubstringOf sr1 protein && isSubstringOf sr2 protein then
    (finditer sr1 protein).any fun f1 =>
      (finditer sr2 protein).any fun f2 =>
        cisPairOk maxInt sr1.length sr2.length f1 f2
  else false

/-- `find_cis_matched_splice_reactants(protein, splice_reactants,
max_intervening)` from `ibench/check_presence.py`: the first split whose
reactant pair passes the positional test yields the list of its fragments
of length `> 1`; if no split qualifies the result is `None`. -/
def find_cis_matched_splice_reactants (protein : List Char)
    (spliceReactants : List (List Char × List Char)) (maxInt : Nat) :
    Option (List (List Char)) :=
  match spliceReactants with
  | [] => none
  | (sr1, sr2) :: rest =>
    if isSubstringOf sr1 protein && isSubstringOf sr2 protein &&
        (finditer sr1 protein).any (fun f1 =>
          (finditer sr2 protein).any fun f2 =>
            cisPairOk maxInt sr1.length sr2.length f1 f2) then
      some ((if sr1.length > 1 then [sr1] else []) ++
            (if sr2.length > 1 then [sr2] else []))
    else
      find_cis_matched_splice_reactants protein rest maxInt

/-- `generate_pairs(peptide)` from `ibench/check_presence.py`: all splits
`(peptide[:i], peptide[i:])` for `i` in `range(1, len(peptide))`. -/
def generate_pairs (peptide : List Char) : List (List Char × List Char) :=
  (List.range' 1 (peptide.length - 1)).map fun i => (peptide.take i, peptide.drop i)

/-- The call `check_cis_present(protein, frag1, frag2)` as written at
`ibench/modify_db.py:149` and `ibench/validate_assignments.py:53`: the
function's signature requires a fourth argument `max_intervening` with no
default, so the call itself raises a `TypeError`. -/
def check_cis_present_missing_arg (protein : List Char)
    (sr1 sr2 : Option (List Char)) : Except String Bool :=
  .error ("TypeError: check_cis_present() missing 1 required positional argument: max_intervening")

/-- The call `find_cis_matched_splice_reactants(protein, splice_pairs)` as
written at `ibench/validate_assignments.py:67`: the signature requires a
third argument `max_intervening` with no default, so the call raises a
`TypeError`. -/
def find_cis_matched_splice_reactants_missing_arg (protein : List Char)
    (spliceReactants : List (List Char × List Char)) :
    Except String (Option (List (List Char))) :=
  .error ("TypeError: find_cis_matched_splice_reactants() missing 1 required positional argument: max_intervening")

/-- Modelled from the spec: `check_cis` is imported by
`ibench/modify_db.py` from `ibench.check_presence` but no definition of it
exists in the source tree.  Per §4.2 of the spec it is the cis-pair scan
`find_cis_pairs(protein, fragment_pairs, max_intervening)`; the cleaner
calls it without a bound and the documented default intervening-sequence
bound is 25 (docstring of `check_cis_present`, spec §8). -/
def checkCis (protein : List Char) (spliceReactants : List (List Char × List Char)) :
    Option (List (List Char)) :=
  find_cis_matched_splice_reactants protein spliceReactants 25

/-! ## `ibench/add_seqs.py` -/

/-- `add_canonical_seq(protein_seq, peptide, choices)`: with a non-empty
candidate list, pick a random position and overwrite
`protein_seq[position : position + len(peptide)]` with the peptide;
otherwise append the peptide at the end. -/
def add_canonical_seq (protein peptide : List Char) (choices : List Nat) (rng : Rng) :
    List Char × Nat × Rng :=
  match choices with
  | [] => (protein ++ peptide, protein.length, rng)
  | x :: xs =>
    let (d, r') := rng.next
    let position := (x :: xs).getD (d % (x :: xs).length) x
    (protein.take position ++ peptide ++ protein.drop (position + peptide.length),
     position, r')

/-- `add_spliced_seq(protein_seq, peptide, choices, splice_site_range)`:
choose a splice site (uniform in `[1, len(peptide)-1]`, or from the given
range), generate a random intervening filler of length in `[1, 26]`, and
insert `frag1 ++ filler ++ frag2` (overwriting `len(peptide)` residues at a
random candidate position, or appending when no candidate exists). -/
def add_spliced_seq (protein peptide : List Char) (choices : List Nat)
    (spliceSiteRange : Option (List Nat)) (rng : Rng) :
    Except String (List Char × Nat × Nat × Rng) := do
  let pepLen := peptide.length
  let (spliceSite, r1) ← match spliceSiteRange with
    | none => pyRandint 1 (pepLen - 1) rng
    | some rangeList => pyChoice rangeList rng
  let (nInt, r2) ← pyRandint 1 26 r1
  let (intSeq, r3) := randFiller nInt r2
  let insertString := peptide.take spliceSite ++ intSeq ++ peptide.drop spliceSite
  match choices with
  | [] => .ok (protein ++ insertString, protein.length, spliceSite, r3)
  | x :: xs =>
    let (d, r4) := r3.next
    let position := (x :: xs).getD (d % (x :: xs).length) x
    .ok (protein.take position ++ insertString ++ protein.drop (position + pepLen),
         position, spliceSite, r4)

/-- `remove_substring(protein, sub_string)`: draw one random filler string
of the substring's length and replace every (non-overlapping) occurrence of
the substring by it. -/
def remove_substring (protein subString : List Char) (rng : Rng) : List Char × Rng :=
  let (replacement, r') := randFiller subString.length rng
  (pyReplace protein subString replacement, r')

/-- Candidate insertion positions for a canonical peptide on a protein with
previous insertions (`ibench/add_seqs.py:192-199`): indices `i` with
`abs(i - mod_pos) >= 20` for every previously used position. -/
def canonicalChoices (protLen : Nat) (modPositions : List Nat) : List Nat :=
  (List.range protLen).filter fun i =>
    modPositions.all fun p => !(((i : Int) - (p : Int)).natAbs < 20)

/-- Candidate insertion positions for a cis-spliced peptide on a protein
with previous insertions (`ibench/add_seqs.py:226-234`): indices `i` such
that for no previously used position `p` is `i - p < 20` or `p - i < 40`
(signed arithmetic). -/
def cisChoices (protLen : Nat) (modPositions : List Nat) : List Nat :=
  (List.range protLen).filter fun i =>
    modPositions.all fun p =>
      !(((i : Int) - (p : Int) < 20) || ((p : Int) - (i : Int) < 40))

/-- Candidate insertion positions for a trans-spliced fragment
(`ibench/add_seqs.py:259-267`): indices `i` such that for no previously
used position `p` is `i - p < 20` or `p - i < len(peptide)`. -/
def transChoices (protLen : Nat) (modPositions : List Nat) (pepLen : Nat) : List Nat :=
  (List.range protLen).filter fun i =>
    modPositions.all fun p =>
      !(((i : Int) - (p : Int) < 20) || ((p : Int) - (i : Int) < (pepLen : Int)))

/-- One row of the embedding-metadata table (`peptide_data` entries built in
`add_sequences`). -/
structure PepRecord where
  peptide : List Char
  proteinIdx : Int
  stratum : String
  frag1 : Option (List Char)
  frag2 : Option (List Char)
deriving DecidableEq, Repr

/-- The ground-truth peptide strata dictionary produced by
`get_pepitde_strata` (`ibench/utils.py`): keys `canonical`, `cisspliced`,
`transspliced` in insertion order. -/
structure PeptideStrata where
  canonical : List (List Char)
  cisspliced : List (List Char)
  transspliced : List (List Char)

/-- The `modified_ids` dictionary of `add_sequences`: protein index mapped
to the list of insertion positions used on it, in key-insertion order. -/
def dictLookup (d : List (Nat × List Nat)) (key : Nat) : Option (List Nat) :=
  (d.find? fun kv => kv.1 == key).map fun kv => kv.2

/-- `modified_ids[prot_idx] = []` for a fresh key. -/
def dictInsertEmpty (d : List (Nat × List Nat)) (key : Nat) : List (Nat × List Nat) :=
  d ++ [(key, [])]

/-- `modified_ids[prot_idx].append(pos)`. -/
def dictAppendPos (d : List (Nat × List Nat)) (key : Nat) (pos : Nat) :
    List (Nat × List Nat) :=
  d.map fun kv => if kv.1 == key then (kv.1, kv.2 ++ [pos]) else kv

/-- `list(modified_ids.keys())`. -/
def dictKeys (d : List (Nat × List Nat)) : List Nat :=
  d.map fun kv => kv.1

/-- The mutable state threaded through `add_sequences`: the proteome, the
`modified_ids` dictionary, the accumulated `peptide_data` rows, and the
random stream. -/
structure AddSt where
  proteome : List (List Char)
  modifiedIds : List (Nat × List Nat)
  records : List PepRecord
  rng : Rng

/-- The error message of `add_sequences` for an unrecognised enzyme
(`ibench/add_seqs.py:213`). -/
def enzymeErrMsg : String := "ValueError: Unrecognised enzyme. Allowed values are None, trypsin."

/-- `get_insert_inds(proteome, peptide_list)` (`ibench/add_seqs.py`):
`np.random.choice(range(n_proteins), size=len(peptide_list))`, modelled as
one draw per peptide reduced modulo the proteome size; `np.random.choice`
raises when the population is empty. -/
def drawIndexList (nProteins : Nat) : List (List Char) → Rng → List Nat × Rng
  | [], r => ([], r)
  | _ :: rest, r =>
    let (d, r') := r.next
    let (tail, r'') := drawIndexList nProteins rest r'
    ((d % nProteins) :: tail, r'')

/-- See `drawIndexList`; the population-empty check of `np.random.choice`. -/
def get_insert_inds (nProteins : Nat) (peptideList : List (List Char)) (rng : Rng) :
    Except String (List Nat × Rng) :=
  if nProteins = 0 then .error ("ValueError: a must be non-empty")
  else .ok (drawIndexList nProteins peptideList rng)

/-- `get_trans_insert_inds(proteome, peptide_list)`: for each peptide two
distinct protein indices via `np.random.choice(.., size=2, replace=False)`
(which raises when the population is smaller than the sample); the second
index is modelled as a draw over the remaining `n - 1` indices. -/
def get_trans_insert_inds (nProteins : Nat) (peptideList : List (List Char)) (rng : Rng) :
    Except String (List Nat × List Nat × Rng) :=
  match peptideList with
  | [] => .ok ([], [], rng)
  | _ :: rest =>
    if nProteins < 2 then
      .error ("ValueError: Cannot take a larger sample than population when replace=False")
    else do
      let (d1, r1) := rng.next
      let i1 := d1 % nProteins
      let (d2, r2) := r1.next
      let j := d2 % (nProteins - 1)
      let i2 := if j < i1 then j else j + 1
      let (t1, t2, r3) ← get_trans_insert_inds nProteins rest r2
      .ok (i1 :: t1, i2 :: t2, r3)

/-- The body of the canonical-peptide loop of `add_sequences`
(`ibench/add_seqs.py:190-221`): compute the candidate positions from the
`modified_ids` record of the target protein, dispatch on the enzyme
(raising on an unrecognised value), insert, and record. -/
def canonStep (enzyme : Option String) (st : AddSt) (pi : List Char × Nat) :
    Except String AddSt :=
  let (peptide, protIdx) := pi
  let protein := st.proteome.getD protIdx []
  let (dict, choices) :=
    match dictLookup st.modifiedIds protIdx with
    | some ps => (st.modifiedIds, canonicalChoices protein.length ps)
    | none => (dictInsertEmpty st.modifiedIds protIdx, List.range protein.length)
  let insert : List Char → Except String AddSt := fun pep =>
    let (newProt, modPos, r') := add_canonical_seq protein pep choices st.rng
    .ok { proteome := st.proteome.set protIdx newProt
          modifiedIds := dictAppendPos dict protIdx modPos
          records := st.records ++
            [{ peptide := peptide, proteinIdx := (protIdx : Int),
               stratum := CANONICAL_KEY, frag1 := none, frag2 := none }]
          rng := r' }
  match enzyme with
  | none => insert peptide
  | some e => if e = trypsinStr then insert ('K' :: peptide) else .error enzymeErrMsg

/-- The canonical-peptide loop of `add_sequences`. -/
def canonPass (enzyme : Option String) :
    List (List Char × Nat) → AddSt → Except String AddSt
  | [], st => .ok st
  | pi :: rest, st => do canonPass enzyme rest (← canonStep enzyme st pi)

/-- The body of the cis-spliced loop of `add_sequences`
(`ibench/add_seqs.py:224-249`). -/
def cisStep (st : AddSt) (pi : List Char × Nat) : Except String AddSt := do
  let (peptide, protIdx) := pi
  let protein := st.proteome.getD protIdx []
  let (dict, choices) :=
    match dictLookup st.modifiedIds protIdx with
    | some ps => (st.modifiedIds, cisChoices protein.length ps)
    | none => (dictInsertEmpty st.modifiedIds protIdx, List.range protein.length)
  let (newProt, modPos, spliceSite, r') ← add_spliced_seq protein peptide choices none st.rng
  .ok { proteome := st.proteome.set protIdx newProt
        modifiedIds := dictAppendPos dict protIdx modPos
        records := st.records ++
          [{ peptide := peptide, proteinIdx := (protIdx : Int),
             stratum := CISSPLICED_KEY,
             frag1 := some (peptide.take spliceSite),
             frag2 := some (peptide.drop spliceSite) }]
        rng := r' }

/-- The cis-spliced loop of `add_sequences`. -/
def cisPass : List (List Char × Nat) → AddSt → Except String AddSt
  | [], st => .ok st
  | pi :: rest, st => do cisPass rest (← cisStep st pi)

/-- The inner fragment-insertion of the trans-spliced loop
(`ibench/add_seqs.py:257-274`): insert one fragment as a canonical insert,
with the trans-specific candidate filter. -/
def transFragInsert (st : AddSt) (idx : Nat) (frag : List Char) (pepLen : Nat) : AddSt :=
  let protein := st.proteome.getD idx []
  let (dict, choices) :=
    match dictLookup st.modifiedIds idx with
    | some ps => (st.modifiedIds, transChoices protein.length ps pepLen)
    | none => (dictInsertEmpty st.modifiedIds idx, List.range protein.length)
  let (newProt, modPos, r') := add_canonical_seq protein frag choices st.rng
  { proteome := st.proteome.set idx newProt
    modifiedIds := dictAppendPos dict idx modPos
    records := st.records
    rng := r' }

/-- The body of the trans-spliced loop of `add_sequences`
(`ibench/add_seqs.py:253-281`): draw the splice site in
`[2, len(peptide) - 2]` (raising on an empty range), then insert each
fragment into its own protein. -/
def transStep (st : AddSt) (x : List Char × Nat × Nat) : Except String AddSt := do
  let (peptide, idx1, idx2) := x
  let (spliceSite, r1) ← pyRandint 2 (peptide.length - 2) st.rng
  let st1 := transFragInsert { st with rng := r1 } idx1 (peptide.take spliceSite) peptide.length
  let st2 := transFragInsert st1 idx2 (peptide.drop spliceSite) peptide.length
  .ok { st2 with records := st2.records ++
          [{ peptide := peptide, proteinIdx := (-1 : Int),
             stratum := TRANSPLICED_KEY,
             frag1 := some (peptide.take spliceSite),
             frag2 := some (peptide.drop spliceSite) }] }

/-- The trans-spliced loop of `add_sequences`. -/
def transPass : List (List Char × Nat × Nat) → AddSt → Except String AddSt
  | [], st => .ok st
  | x :: rest, st => do transPass rest (← transStep st x)

/-- `add_sequences(proteome, peptide_strata, enzyme)` from
`ibench/add_seqs.py`: the three insertion passes over the canonical,
cis-spliced and trans-spliced strata.  Returns the modified proteome, the
embedding-metadata rows, the modified protein indices
(`list(modified_ids.keys())`) and the final random-stream state. -/
def add_sequences (proteome : List (List Char)) (strata : PeptideStrata)
    (enzyme : Option String) (rng : Rng) :
    Except String (List (List Char) × List PepRecord × List Nat × Rng) := do
  let st0 : AddSt := { proteome := proteome, modifiedIds := [], records := [], rng := rng }
  let (insertInds1, r1) ← get_insert_inds proteome.length strata.canonical st0.rng
  let st1 ← canonPass enzyme (strata.canonical.zip insertInds1) { st0 with rng := r1 }
  let (insertInds2, r2) ← get_insert_inds proteome.length strata.cisspliced st1.rng
  let st2 ← cisPass (strata.cisspliced.zip insertInds2) { st1 with rng := r2 }
  let (transInds1, transInds2, r3) ←
    get_trans_insert_inds proteome.length strata.transspliced st2.rng
  let st3 ← transPass (strata.transspliced.zip (transInds1.zip transInds2)) { st2 with rng := r3 }
  .ok (st3.proteome, st3.records, dictKeys st3.modifiedIds, st3.rng)

/-! ## `ibench/modify_db.py` — proteome cleaner

`remove_matches` iterates the strata dictionary (key-insertion order:
canonical, cisspliced, transspliced), for each peptide iterates the indices
of interest, scrubs contiguous occurrences, and — for non-canonical strata
when the cis stratum is non-empty — scrubs cis-matched fragments found by
`check_cis` (the latter function is missing from the source tree and is
modelled from the spec, see `checkCis`). -/

/-- The strata dictionary as iterated by `for stratum in peptide_strata`. -/
def strataList (strata : PeptideStrata) : List (String × List (List Char)) :=
  [(CANONICAL_KEY, strata.canonical),
   (CISSPLICED_KEY, strata.cisspliced),
   (TRANSPLICED_KEY, strata.transspliced)]

/-- All ground-truth peptides of all strata. -/
def allPeps (strata : PeptideStrata) : List (List Char) :=
  strata.canonical ++ strata.cisspliced ++ strata.transspliced

/-- State threaded through a `remove_matches` pass: proteome, the
accumulated `modified_ids` list, and the random stream. -/
structure RMSt where
  proteome : List (List Char)
  mods : List Nat
  rng : Rng

/-- Record index `idx` as modified and scrub `sub` from `proteome[idx]`
(`modified_ids.append(idx); proteome[idx] = remove_substring(...)`). -/
def scrubAt (st : RMSt) (idx : Nat) (sub : List Char) : RMSt :=
  let (newProt, r') := remove_substring (st.proteome.getD idx []) sub st.rng
  { proteome := st.proteome.set idx newProt
    mods := st.mods ++ [idx]
    rng := r' }

/-- The `for replace_string in replace_strings` scrub loop of
`remove_matches` (`ibench/modify_db.py:63-65`). -/
def rmCisScrubs (idx : Nat) : List (List Char) → RMSt → RMSt
  | [], st => st
  | r :: rest, st => rmCisScrubs idx rest (scrubAt st idx r)

/-- The body of the `for idx in ids_of_interest` loop of `remove_matches`
(`ibench/modify_db.py:56-65`) for one peptide and one protein index:
scrub a contiguous occurrence, then (for active cis checking) scrub the
fragments reported by `check_cis` on the current protein. -/
def rmIdxStep (peptide : List Char) (cisActive : Bool)
    (pairs : List (List Char × List Char)) (st : RMSt) (idx : Nat) : RMSt :=
  let st1 := if isSubstringOf peptide (st.proteome.getD idx []) then
      scrubAt st idx peptide
    else st
  if cisActive then
    match checkCis (st1.proteome.getD idx []) pairs with
    | some replaceStrings => rmCisScrubs idx replaceStrings st1
    | none => st1
  else st1

/-- The `for idx in ids_of_interest` loop of `remove_matches`
(`ibench/modify_db.py:55-65`) for one peptide. -/
def rmIdsLoop (peptide : List Char) (cisActive : Bool)
    (pairs : List (List Char × List Char)) : List Nat → RMSt → RMSt
  | [], st => st
  | idx :: rest, st =>
    rmIdsLoop peptide cisActive pairs rest (rmIdxStep peptide cisActive pairs st idx)

/-- The `for peptide in peptide_strata[stratum]` loop of `remove_matches`
for one stratum. -/
def rmPepsLoop (cisNonempty : Bool) (stratumKey : String) (ids : List Nat) :
    List (List Char) → RMSt → RMSt
  | [], st => st
  | peptide :: rest, st =>
    let cisActive := cisNonempty && !(stratumKey == CANONICAL_KEY)
    let pairs := generate_pairs peptide
    rmPepsLoop cisNonempty stratumKey ids rest
      (rmIdsLoop peptide cisActive pairs ids st)

/-- The `for stratum in peptide_strata` loop of `remove_matches`. -/
def rmStrataLoop (cisNonempty : Bool) (ids : List Nat) :
    List (String × List (List Char)) → RMSt → RMSt
  | [], st => st
  | (key, peps) :: rest, st =>
    rmStrataLoop cisNonempty ids rest (rmPepsLoop cisNonempty key ids peps st)

/-- `remove_matches(proteome, peptide_strata, ids_of_interest)` from
`ibench/modify_db.py`. -/
def remove_matches (proteome : List (List Char)) (strata : PeptideStrata)
    (ids : List Nat) (rng : Rng) : RMSt :=
  rmStrataLoop (strata.cisspliced.length != 0) ids (strataList strata)
    { proteome := proteome, mods := [], rng := rng }

/-- `set(modified_ids)`: the modified indices as a deduplicated list
(iteration order of a Python set is an implementation detail and no claim
depends on it). -/
def pySetNat (l : List Nat) : List Nat := l.dedup

/-- The `while modified_ids:` loop of `clean_proteome`
(`ibench/modify_db.py:288-299`).  The source has no iteration cap, so the
loop is modelled with fuel; exhausting the fuel (non-termination within the
allotted passes) yields `none`. -/
def cleanLoop (strata : PeptideStrata) :
    Nat → List (List Char) → List Nat → Rng → Option (List (List Char))
  | 0, _, _, _ => none
  | fuel + 1, proteome, modifiedIds, rng =>
    if modifiedIds = [] then some proteome
    else
      let st := remove_matches proteome strata (pySetNat modifiedIds) rng
      cleanLoop strata fuel st.proteome st.mods st.rng

/-- `clean_proteome(fasta_sequences, peptide_strata, ...)` from
`ibench/modify_db.py` (file output elided): one unrestricted
`remove_matches` pass (a `None` ids argument means all indices), then the
fixed-point loop restricted to the previously modified indices. -/
def clean_proteome (fuel : Nat) (fastaSequences : List (List Char))
    (strata : PeptideStrata) (rng : Rng) : Option (List (List Char)) :=
  let st := remove_matches fastaSequences strata (List.range fastaSequences.length) rng
  cleanLoop strata fuel st.proteome st.mods st.rng

/-! ## `ibench/modify_db.py` — embedding repair loop (`check_sequences`,
`add_seqs_to_proteome`) -/

/-- Python list indexing `l[i]` with an `int` index: negative indices wrap
once, out-of-range access raises `IndexError`. -/
def pyIndex (l : List (List Char)) (i : Int) : Except String (List Char) :=
  let j := if i < 0 then i + l.length else i
  if h : 0 ≤ j ∧ j.toNat < l.length then .ok (l.get ⟨j.toNat, h.2⟩)
  else .error ("IndexError: list index out of range")

/-- Python list assignment `l[i] = v` with an `int` index. -/
def pySetAt (l : List (List Char)) (i : Int) (v : List Char) :
    Except String (List (List Char)) :=
  let j := if i < 0 then i + l.length else i
  if 0 ≤ j ∧ j.toNat < l.length then .ok (l.set j.toNat v)
  else .error ("IndexError: list assignment index out of range")

/-- Membership of an `int` protein index in an id list. -/
def intMem (i : Int) (l : List Int) : Bool :=
  l.any fun n => n == i

/-- `set(modified_ids)` over the mixed-provenance integer ids of the repair
loop. -/
def pySetInt (l : List Int) : List Int := l.dedup

/-- The canonical-peptide section of `check_sequences`
(`ibench/modify_db.py:113-126`): re-append any canonical peptide no longer
literally present in its target protein.  State: (proteome, newly modified
ids). -/
def canonCheckLoop (enzyme : Option String) (modifiedIds : List Int) (runIdx : Nat) :
    List PepRecord → List (List Char) × List Int →
    Except String (List (List Char) × List Int)
  | [], st => .ok st
  | row :: rest, (proteome, newIds) => do
    let peptide := if enzyme = some trypsinStr then 'K' :: row.peptide else row.peptide
    if runIdx > 1 ∧ ¬ intMem row.proteinIdx modifiedIds then
      canonCheckLoop enzyme modifiedIds runIdx rest (proteome, newIds)
    else do
      let prot ← pyIndex proteome row.proteinIdx
      if isSubstringOf peptide prot then
        canonCheckLoop enzyme modifiedIds runIdx rest (proteome, newIds)
      else do
        let proteome' ← pySetAt proteome row.proteinIdx (prot ++ peptide)
        canonCheckLoop enzyme modifiedIds runIdx rest (proteome', newIds ++ [row.proteinIdx])

/-- The collision scan of the cis-spliced section of `check_sequences`
(`ibench/modify_db.py:133-143`): scrub a cis peptide found as a contiguous
substring of any previously modified protein, replacing it by one random
filler string. -/
def cisCollisionScan (peptide : List Char) :
    List Int → List (List Char) × List Int × Rng →
    Except String (List (List Char) × List Int × Rng)
  | [], st => .ok st
  | otherIdx :: rest, (proteome, newIds, rng) => do
    let prot ← pyIndex proteome otherIdx
    if isSubstringOf peptide prot then do
      let (fill, rng') := randFiller peptide.length rng
      let proteome' ← pySetAt proteome otherIdx (pyReplace prot peptide fill)
      cisCollisionScan peptide rest (proteome', newIds ++ [otherIdx], rng')
    else
      cisCollisionScan peptide rest (proteome, newIds, rng)

/-- The cis-spliced section of `check_sequences`
(`ibench/modify_db.py:129-173`).  State: (peptide table, proteome, newly
modified ids, rng).  After the collision scan the code calls
`check_cis_present(protein, frag1, frag2)` without the required
`max_intervening` argument, which raises a `TypeError`; the re-insertion
branch below that call is translated but unreachable. -/
def cisCheckLoop (modifiedIds : List Int) (runIdx : Nat) :
    List PepRecord → List PepRecord × List (List Char) × List Int × Rng →
    Except String (List PepRecord × List (List Char) × List Int × Rng)
  | [], st => .ok st
  | row :: rest, (df, proteome, newIds, rng) => do
    let (proteome, newIds, rng) ← cisCollisionScan row.peptide modifiedIds (proteome, newIds, rng)
    if runIdx > 1 ∧ ¬ intMem row.proteinIdx modifiedIds then
      cisCheckLoop modifiedIds runIdx rest (df, proteome, newIds, rng)
    else do
      let prot ← pyIndex proteome row.proteinIdx
      let present ← check_cis_present_missing_arg prot row.frag1 row.frag2
      if present then
        cisCheckLoop modifiedIds runIdx rest (df, proteome, newIds, rng)
      else do
        let frag1 := row.frag1.getD []
        let frag2 := row.frag2.getD []
        let (newProt, _, newSpliceSite, rng') ←
          if frag1.length > frag2.length then
            add_spliced_seq prot row.peptide []
              (some (List.range' 1 (frag1.length - 1 - 1))) rng
          else
            add_spliced_seq prot row.peptide []
              (some (List.range' (frag1.length + 1)
                (row.peptide.length - (frag1.length + 1)))) rng
        let proteome' ← pySetAt proteome row.proteinIdx newProt
        match df.findIdx? (fun r => r.peptide == row.peptide) with
        | none => .error ("IndexError: list index out of range")
        | some i =>
          let df' := df.set i { (df.getD i row) with
            frag1 := some (row.peptide.take newSpliceSite),
            frag2 := some (row.peptide.drop newSpliceSite) }
          cisCheckLoop modifiedIds runIdx rest
            (df', proteome', newIds ++ [row.proteinIdx], rng')

/-- The `for replace_string in replace_frags` scrub loop of the trapping
section of `check_sequences` (`ibench/modify_db.py:194-198`). -/
def trappingScrubs (otherIdx : Int) :
    List (List Char) → List (List Char) × List Int × Rng →
    Except String (List (List Char) × List Int × Rng)
  | [], st => .ok st
  | r :: rs, (proteome, newIds, rng) => do
    let prot ← pyIndex proteome otherIdx
    let (newProt, rng') := remove_substring prot r rng
    let proteome' ← pySetAt proteome otherIdx newProt
    trappingScrubs otherIdx rs (proteome', newIds ++ [otherIdx], rng')

/-- The inner `for other_idx in modified_ids` loop of the trapping section
of `check_sequences` (`ibench/modify_db.py:177-200`). -/
def trappingScan (peptide : List Char) (hasCisRows : Bool) :
    List Int → List (List Char) × List Int × Rng →
    Except String (List (List Char) × List Int × Rng)
  | [], st => .ok st
  | otherIdx :: rest, (proteome, newIds, rng) => do
    let prot ← pyIndex proteome otherIdx
    let (proteome, newIds, rng) ←
      if isSubstringOf peptide prot then do
        let (fill, rng') := randFiller peptide.length rng
        let proteome' ← pySetAt proteome otherIdx (pyReplace prot peptide fill)
        pure (proteome', newIds ++ [otherIdx], rng')
      else pure (proteome, newIds, rng)
    if hasCisRows then do
      let transPairs := generate_pairs peptide
      let prot' ← pyIndex proteome otherIdx
      match checkCis prot' transPairs with
      | some replaceFrags => do
        let st' ← trappingScrubs otherIdx replaceFrags (proteome, newIds, rng)
        trappingScan peptide hasCisRows rest st'
      | none => trappingScan peptide hasCisRows rest (proteome, newIds, rng)
    else trappingScan peptide hasCisRows rest (proteome, newIds, rng)

/-- The trapping section of `check_sequences`. -/
def trappingCheckLoop (modifiedIds : List Int) (hasCisRows : Bool) :
    List PepRecord → List (List Char) × List Int × Rng →
    Except String (List (List Char) × List Int × Rng)
  | [], st => .ok st
  | row :: rest, st => do
    trappingCheckLoop modifiedIds hasCisRows rest
      (← trappingScan row.peptide hasCisRows modifiedIds st)

/-- `check_sequences(peptide_df, modified_proteome, modified_ids, enzyme,
run_idx)` from `ibench/modify_db.py`: the canonical, cis-spliced and
trapping consistency passes.  Returns the updated table, proteome, newly
modified ids and random-stream state. -/
def check_sequences (peptideDf : List PepRecord) (proteome : List (List Char))
    (modifiedIds : List Int) (enzyme : Option String) (runIdx : Nat) (rng : Rng) :
    Except String (List PepRecord × List (List Char) × List Int × Rng) := do
  let nonSpliced := peptideDf.filter fun r => r.stratum == CANONICAL_KEY
  let cisSpliced := peptideDf.filter fun r => r.stratum == CISSPLICED_KEY
  let trapping := peptideDf.filter fun r => r.stratum == TRAPPING_KEY
  let (proteome1, newIds1) ← canonCheckLoop enzyme modifiedIds runIdx nonSpliced (proteome, [])
  let (df2, proteome2, newIds2, rng2) ←
    cisCheckLoop modifiedIds runIdx cisSpliced (peptideDf, proteome1, newIds1, rng)
  let (proteome3, newIds3, rng3) ←
    trappingCheckLoop modifiedIds (cisSpliced.length != 0) trapping (proteome2, newIds2, rng2)
  .ok (df2, proteome3, newIds3, rng3)

/-- The `while modified_ids:` repair loop of `add_seqs_to_proteome`
(`ibench/modify_db.py:232-251`), with an explicit count of the
`check_sequences` calls performed.  The fuel mirrors the remaining
iterations before `idx == 30`; the top-level call supplies fuel 30 at
`idx = 1`, so the fuel-exhausted branch is unreachable there. -/
def repairLoop (enzyme : Option String) :
    Nat → Nat → List PepRecord → List (List Char) → List Int → Rng →
    Except String (List PepRecord × List (List Char) × Rng) × Nat
  | 0, _, df, proteome, _, rng => (.ok (df, proteome, rng), 0)
  | fuel + 1, idx, df, proteome, modifiedIds, rng =>
    if modifiedIds = [] then (.ok (df, proteome, rng), 0)
    else
      match check_sequences df proteome (pySetInt modifiedIds) enzyme idx rng with
      | .error e => (.error e, 1)
      | .ok (df', proteome', newIds, rng') =>
        if idx == 30 then (.ok (df', proteome', rng'), 1)
        else
          let (res, n) := repairLoop enzyme fuel (idx + 1) df' proteome' newIds rng'
          (res, n + 1)

/-- `add_seqs_to_proteome(...)` from `ibench/modify_db.py` (file I/O
elided): the initial `add_sequences` pass followed by the capped repair
loop.  The second component counts the `check_sequences` calls made. -/
def add_seqs_to_proteome (cleanedProteome : List (List Char)) (strata : PeptideStrata)
    (enzyme : Option String) (rng : Rng) :
    Except String (List PepRecord × List (List Char) × Rng) × Nat :=
  match add_sequences cleanedProteome strata enzyme rng with
  | .error e => (.error e, 0)
  | .ok (proteome, peptideDf, modifiedIds, rng') =>
    repairLoop enzyme 30 1 peptideDf proteome (modifiedIds.map fun n => (n : Int)) rng'

/-! ## `ibench/validate_assignments.py` — final validator -/

/-- The trans-spliced scan of `check_assignment`
(`ibench/validate_assignments.py:61-69`): reject on any contiguous
occurrence; with cis-spliced peptides present, the code then calls
`find_cis_matched_splice_reactants(protein, splice_pairs)` without the
required `max_intervening` argument, raising a `TypeError`. -/
def transAssignmentScan (peptide : List Char) (pairs : List (List Char × List Char))
    (hasCis : Bool) : List (List Char) → Except String Bool
  | [] => .ok true
  | prot :: rest => do
    if isSubstringOf peptide prot then .ok false
    else if hasCis then do
      let found ← find_cis_matched_splice_reactants_missing_arg prot pairs
      if found.isSome then .ok false
      else transAssignmentScan peptide pairs hasCis rest
    else transAssignmentScan peptide pairs hasCis rest

/-- `check_assignment(df_row, modified_proteome, has_cis, enzyme)` from
`ibench/validate_assignments.py`: stratum-dispatching acceptance test of
the final validator. -/
def check_assignment (row : PepRecord) (proteome : List (List Char))
    (hasCis : Bool) (enzyme : Option String) : Except String Bool := do
  let peptide := row.peptide
  if row.stratum = CANONICAL_KEY then do
    let prot ← pyIndex proteome row.proteinIdx
    if enzyme = some trypsinStr then
      if isSubstringOf ('K' :: peptide) prot then .ok true else .ok false
    else
      if isSubstringOf peptide prot then .ok true else .ok false
  else if row.stratum = CISSPLICED_KEY then
    if proteome.any fun prot => isSubstringOf peptide prot then .ok false
    else do
      let prot ← pyIndex proteome row.proteinIdx
      let present ← check_cis_present_missing_arg prot row.frag1 row.frag2
      if present then .ok true else .ok false
  else if row.stratum = TRANSPLICED_KEY then
    transAssignmentScan peptide (generate_pairs peptide) hasCis proteome
  else .ok false

/-! ## Occurrence counting (used to state exclusivity properties) -/

/-- All start positions (overlapping included) at which `sub` occurs as a
contiguous substring of `s`. -/
def occPositions (sub s : List Char) : List Nat :=
  (List.range (s.length + 1)).filter fun i => sub.isPrefixOf (s.drop i)

/-- The total number of (protein, position) occurrences of `sub` across a
proteome. -/
def totalOccurrences (sub : List Char) (proteome : List (List Char)) : Nat :=
  (proteome.map fun prot => (occPositions sub prot).length).sum

/-! ## Basic lemmas about the substring machinery -/

lemma prefixOf_iff {l m : List Char} : l.isPrefixOf m = true ↔ l <+: m :=
  List.isPrefixOf_iff_prefix

lemma isSubstringOf_nil_left (s : List Char) : isSubstringOf [] s = true := by
  cases s with
  | nil => rfl
  | cons c t => simp [isSubstringOf, List.isPrefixOf]

lemma isSubstringOf_cons {sub : List Char} {c : Char} {t : List Char} :
    isSubstringOf sub (c :: t) = (sub.isPrefixOf (c :: t) || isSubstringOf sub t) := rfl

lemma isSubstringOf_of_prefixOf {sub s : List Char} (h : sub.isPrefixOf s = true) :
    isSubstringOf sub s = true := by
  cases s with
  | nil => exact h
  | cons c t => simp [isSubstringOf_cons, h]

lemma isSubstringOf_of_tail {sub : List Char} {c : Char} {t : List Char}
    (h : isSubstringOf sub t = true) : isSubstringOf sub (c :: t) = true := by
  simp [isSubstringOf_cons, h]

lemma isSubstringOf_iff_drop {sub s : List Char} :
    isSubstringOf sub s = true ↔ ∃ i, sub.isPrefixOf (s.drop i) = true := by
  induction s with
  | nil =>
    simp only [isSubstringOf, List.drop_nil]
    exact ⟨fun h => ⟨0, h⟩, fun ⟨_, h⟩ => h⟩
  | cons c t ih =>
    simp only [isSubstringOf_cons, Bool.or_eq_true, ih]
    constructor
    · rintro (h | ⟨i, h⟩)
      · exact ⟨0, h⟩
      · exact ⟨i + 1, h⟩
    · rintro ⟨i, h⟩
      cases i with
      | zero => exact Or.inl h
      | succ j => exact Or.inr ⟨j, h⟩

lemma isSubstringOf_of_drop {sub s : List Char} (i : Nat)
    (h : sub.isPrefixOf (s.drop i) = true) : isSubstringOf sub s = true :=
  isSubstringOf_iff_drop.mpr ⟨i, h⟩

lemma isSubstringOf_append_right {sub a b : List Char}
    (h : isSubstringOf sub b = true) : isSubstringOf sub (a ++ b) = true := by
  induction a with
  | nil => simpa
  | cons c t ih => exact isSubstringOf_of_tail ih

/-- A match-start recorded by the `re.finditer` scan witnesses a substring
occurrence. -/
lemma substring_of_mem_finditerAux {sub : List Char} {fuel : Nat} {s : List Char}
    {pos p : Nat} (h : p ∈ finditerAux sub fuel s pos) : isSubstringOf sub s = true := by
  induction fuel, s, pos using finditerAux.induct sub with
  | case1 fuel' pos' hs =>
    simp [hs, isSubstringOf_nil_left]
  | case2 fuel' pos' hs =>
    simp [finditerAux, hs] at h
  | case3 c t pos' =>
    simp [finditerAux] at h
  | case4 fuel' c t pos' hcond ih =>
    exact isSubstringOf_of_prefixOf hcond.2
  | case5 fuel' c t pos' hcond hs ih =>
    subst hs
    exact isSubstringOf_nil_left _
  | case6 fuel' c t pos' hcond hs ih =>
    simp only [finditerAux, if_neg hcond, if_neg hs] at h
    exact isSubstringOf_of_tail (ih h)

lemma substring_of_mem_finditer {sub s : List Char} {p : Nat}
    (h : p ∈ finditer sub s) : isSubstringOf sub s = true :=
  substring_of_mem_finditerAux h

/-- Conversely, if `sub` occurs in `s` then the scan (run with enough fuel)
records at least one match. -/
lemma finditerAux_ne_nil_of_substring {sub : List Char} {fuel : Nat} {s : List Char}
    {pos : Nat} (hf : s.length ≤ fuel) (h : isSubstringOf sub s = true) :
    finditerAux sub fuel s pos ≠ [] := by
  induction fuel, s, pos using finditerAux.induct sub with
  | case1 fuel' pos' hs =>
    simp [finditerAux, hs]
  | case2 fuel' pos' hs =>
    exfalso
    have hp : sub.isPrefixOf [] = true := h
    rcases sub with _ | ⟨a, as⟩
    · exact hs rfl
    · simp [List.isPrefixOf] at hp
  | case3 c t pos' =>
    simp at hf
  | case4 fuel' c t pos' hcond ih =>
    simp [finditerAux, hcond]
  | case5 fuel' c t pos' hcond hs ih =>
    subst hs
    simp [finditerAux, hcond]
  | case6 fuel' c t pos' hcond hs ih =>
    simp only [finditerAux, if_neg hcond, if_neg hs]
    apply ih
    · simp only [List.length_cons] at hf
      omega
    · simp only [isSubstringOf_cons, Bool.or_eq_true] at h
      rcases h with h | h
      · exact absurd ⟨hs, h⟩ hcond
      · exact h

lemma finditer_ne_nil_of_substring {sub s : List Char}
    (h : isSubstringOf sub s = true) : finditer sub s ≠ [] :=
  finditerAux_ne_nil_of_substring le_rfl h

/-- `cisPairOk` unfolded into arithmetic: the earlier-occurring fragment
must end strictly before the later one starts, and the start-position gap
is bounded by `max_intervening` plus the earlier fragment's length. -/
lemma cisPairOk_iff {maxInt len1 len2 f1 f2 : Nat} :
    cisPairOk maxInt len1 len2 f1 f2 = true ↔
      ((f1 + len1 < f2 ∧ f2 - f1 ≤ maxInt + len1) ∨
       (f2 + len2 < f1 ∧ f1 - f2 ≤ maxInt + len2)) := by
  unfold cisPairOk
  split
  · split
    · constructor
      · intro h; cases h
      · intro h; omega
    · constructor
      · intro h
        simp only [decide_eq_true_eq] at h
        omega
      · intro h
        simp only [decide_eq_true_eq]
        omega
  · split
    · constructor
      · intro h; cases h
      · intro h; omega
    · constructor
      · intro h
        simp only [decide_eq_true_eq] at h
        omega
      · intro h
        simp only [decide_eq_true_eq]
        omega

/-! ## Claim C2 — cis-presence detection rule -/

lemma check_cis_present_eq (protein sr1 sr2 : List Char) (maxInt : Nat) :
    check_cis_present protein sr1 sr2 maxInt =
      (isSubstringOf sr1 protein && isSubstringOf sr2 protein &&
        (finditer sr1 protein).any fun f1 =>
          (finditer sr2 protein).any fun f2 =>
            cisPairOk maxInt sr1.length sr2.length f1 f2) := by
  unfold check_cis_present
  cases h : (isSubstringOf sr1 protein && isSubstringOf sr2 protein) <;> simp [h]

lemma check_cis_present_iff (protein sr1 sr2 : List Char) (maxInt : Nat) :
    check_cis_present protein sr1 sr2 maxInt = true ↔
      ∃ p1 ∈ finditer sr1 protein, ∃ p2 ∈ finditer sr2 protein,
        ((p1 + sr1.length < p2 ∧ p2 - p1 ≤ maxInt + sr1.length) ∨
         (p2 + sr2.length < p1 ∧ p1 - p2 ≤ maxInt + sr2.length)) := by
  rw [check_cis_present_eq]
  constructor
  · intro h
    rw [Bool.and_eq_true, List.any_eq_true] at h
    obtain ⟨-, p1, hp1, hany⟩ := h
    rw [List.any_eq_true] at hany
    obtain ⟨p2, hp2, hok⟩ := hany
    exact ⟨p1, hp1, p2, hp2, cisPairOk_iff.mp hok⟩
  · rintro ⟨p1, hp1, p2, hp2, hcond⟩
    rw [Bool.and_eq_true, List.any_eq_true]
    refine ⟨?_, p1, hp1, ?_⟩
    · rw [Bool.and_eq_true]
      exact ⟨substring_of_mem_finditer hp1, substring_of_mem_finditer hp2⟩
    · rw [List.any_eq_true]
      exact ⟨p2, hp2, cisPairOk_iff.mpr hcond⟩

lemma find_cis_eq_find? (protein : List Char) (maxInt : Nat) :
    ∀ pairs : List (List Char × List Char),
      find_cis_matched_splice_reactants protein pairs maxInt =
        (pairs.find? fun pr => check_cis_present protein pr.1 pr.2 maxInt).map
          fun pr => (if pr.1.length > 1 then [pr.1] else []) ++
                    (if pr.2.length > 1 then [pr.2] else [])
  | [] => rfl
  | (sr1, sr2) :: rest => by
    have hrec := find_cis_eq_find? protein maxInt rest
    simp only [find_cis_matched_splice_reactants, List.find?]
    rw [← check_cis_present_eq]
    cases h : check_cis_present protein sr1 sr2 maxInt <;> simp [h, hrec]

/-- Claim C2: the scanner reports a cis match exactly when some pair of
recorded `re.finditer` start positions of the two fragments satisfies the
directional separation rule — the earlier fragment ends strictly before the
later one starts and the start-position gap is at most
`max_intervening + len(earlier fragment)` (so overlapping occurrences never
match) — and `find_cis_matched_splice_reactants`, trying the splits in list
order, returns for the first qualifying split the list of its fragments of
length `> 1`, else `none`.  (Amended: the positions quantified over are the
non-overlapping, left-to-right `re.finditer` match positions, not all
occurrence positions.) -/
theorem claim_C2 (protein : List Char) (maxInt : Nat) :
    (∀ sr1 sr2 : List Char,
      check_cis_present protein sr1 sr2 maxInt = true ↔
        ∃ p1 ∈ finditer sr1 protein, ∃ p2 ∈ finditer sr2 protein,
          ((p1 + sr1.length < p2 ∧ p2 - p1 ≤ maxInt + sr1.length) ∨
           (p2 + sr2.length < p1 ∧ p1 - p2 ≤ maxInt + sr2.length))) ∧
    (∀ pairs : List (List Char × List Char),
      find_cis_matched_splice_reactants protein pairs maxInt =
        (pairs.find? fun pr => check_cis_present protein pr.1 pr.2 maxInt).map
          fun pr => (if pr.1.length > 1 then [pr.1] else []) ++
                    (if pr.2.length > 1 then [pr.2] else [])) :=
  ⟨fun sr1 sr2 => check_cis_present_iff protein sr1 sr2 maxInt,
   find_cis_eq_find? protein maxInt⟩

/-- Counterexample to claim C2 as stated: quantifying over all occurrence
start positions is wrong.  In `'AAABC'` the fragment `'AA'` also occurs at
position 1 (overlapping the `re.finditer` match at 0), and the pair
(1, 4) with `'C'` satisfies the rule at `max_intervening = 1`
(`1 + 2 < 4` and `4 - 1 ≤ 1 + 2`), yet the scanner reports no match
because its non-overlapping scan only records position 0. -/
theorem claim_C2_counterexample :
    check_cis_present ['A', 'A', 'A', 'B', 'C'] ['A', 'A'] ['C'] 1 = false ∧
    ['A', 'A'].isPrefixOf (['A', 'A', 'A', 'B', 'C'].drop 1) = true ∧
    ['C'].isPrefixOf (['A', 'A', 'A', 'B', 'C'].drop 4) = true ∧
    1 + ['A', 'A'].length < 4 ∧ 4 - 1 ≤ 1 + ['A', 'A'].length := by
  decide

/-! ## Claim C7 — concrete cis-scan scenario -/

/-- The test protein `'MITTAGESSENHIERSCHNELL'` used by the spec's concrete
scenarios and the unit tests. -/
def PROTEIN_SEQ : List Char :=
  ['M', 'I', 'T', 'T', 'A', 'G', 'E', 'S', 'S', 'E', 'N', 'H', 'I', 'E', 'R', 'S', 'C', 'H', 'N', 'E', 'L', 'L']

/-- Claim C7 (code_bug evaluation): the scenario's call carries only two
arguments, but `find_cis_matched_splice_reactants` requires
`max_intervening` with no default, so the call as written raises a
`TypeError`.  Supplying the documented intervening bound 25 produces the
expected `['MI', 'LL']` (first qualifying split). -/
theorem claim_C7 :
    find_cis_matched_splice_reactants PROTEIN_SEQ
      [(['M'], ['I', 'L', 'L']), (['M', 'I'], ['L', 'L']), (['M', 'I', 'L'], ['L'])]
      25 = some [['M', 'I'], ['L', 'L']] := by
  decide

/-! ## Concrete inputs used by witnesses and counterexamples -/

/-- A fixed all-zero random stream: every draw takes the first available
value.  Theorems quantifying over `Rng` are instantiated with it. -/
def rng0 : Rng := ⟨fun _ => 0, 0⟩

/-- The peptide `'HAPPY'` of the spec's concrete scenarios. -/
def pepHAPPY : List Char := ['H', 'A', 'P', 'P', 'Y']

/-- The peptide `'TIRED'` of the spec's concrete scenarios. -/
def pepTIRED : List Char := ['T', 'I', 'R', 'E', 'D']

/-! ## Claim C3 — the cis-spliced minimum-separation filter -/

/-- Claim C3 (code_bug evaluation): for a protein with at least one
previously used insertion position, the cis-spliced candidate filter
`not (i - mod_pos < 20 or mod_pos - i < 40)` of `add_sequences` is
unsatisfiable — `i - p ≥ 20` forces `p - i ≤ -20 < 40` — so the candidate
set is empty for every protein length and every previous position, and the
spliced insert always falls back to appending at the protein end. -/
theorem claim_C3 (protLen : Nat) (p : Nat) : cisChoices protLen [p] = [] := by
  unfold cisChoices
  rw [List.filter_eq_nil_iff]
  intro i _
  simp only [List.all_cons, List.all_nil, Bool.and_true, Bool.not_eq_true',
    Bool.or_eq_false_iff, decide_eq_false_iff_not, not_lt, not_and, not_forall,
    not_le, Bool.not_eq_false, Bool.or_eq_true, decide_eq_true_eq]
  omega

/-! ## Claim C5 — length invariant of canonical insertion -/

/-- Claim C5 (amended): `add_canonical_seq` preserves the sequence length
for every non-empty candidate list whose positions `q` satisfy
`q + len(peptide) ≤ len(sequence)` (the overwritten window must fit); with
an empty candidate list it returns `sequence ++ peptide` together with
position `len(sequence)`. -/
theorem claim_C5 (s pep : List Char) (choices : List Nat) (rng : Rng) :
    (choices ≠ [] → (∀ q ∈ choices, q + pep.length ≤ s.length) →
      ((add_canonical_seq s pep choices rng).1).length = s.length) ∧
    (choices = [] → add_canonical_seq s pep choices rng = (s ++ pep, s.length, rng)) := by
  constructor
  · intro hne hbound
    match choices, hne with
    | x :: xs, _ =>
      have hmem : (x :: xs).getD (rng.next.1 % (x :: xs).length) x ∈ x :: xs := by
        have hlt : rng.next.1 % (x :: xs).length < (x :: xs).length :=
          Nat.mod_lt _ (by simp)
        rw [List.getD_eq_getElem _ _ hlt]
        exact List.getElem_mem hlt
      have hq := hbound _ hmem
      simp only [add_canonical_seq, List.length_append, List.length_take,
        List.length_drop]
      omega
  · rintro rfl
    rfl

/-- Counterexample to claim C5 as stated: position 1 is a valid index of
`'AB'`, yet overwriting with the length-3 peptide `'XYZ'` runs past the end
and the result `'AXYZ'` has length 4, not 2. -/
theorem claim_C5_counterexample :
    ((add_canonical_seq ['A', 'B'] ['X', 'Y', 'Z'] [1] rng0).1).length ≠
      (['A', 'B'] : List Char).length := by
  decide

/-- Witness for claim C5 at the spec's concrete scenarios 1 and 2. -/
theorem claim_C5_witness :
    ((add_canonical_seq PROTEIN_SEQ pepHAPPY [1] rng0).1).length = PROTEIN_SEQ.length ∧
    add_canonical_seq PROTEIN_SEQ pepHAPPY [] rng0 = (PROTEIN_SEQ ++ pepHAPPY, PROTEIN_SEQ.length, rng0) :=
  ⟨(claim_C5 PROTEIN_SEQ pepHAPPY [1] rng0).1 (by decide) (by decide),
   (claim_C5 PROTEIN_SEQ pepHAPPY [] rng0).2 rfl⟩

/-! ## Claim C9 — unrecognised enzyme -/

/-- Claim C9 (amended): with an enzyme other than `None` or `'trypsin'`,
every canonical-peptide step raises the unrecognised-enzyme error without
touching the proteome, so `add_sequences` on a non-empty proteome with a
non-empty canonical stratum fails with that error while processing the
first canonical peptide.  (When the canonical stratum is empty the enzyme
is never inspected and no error is raised — see the counterexample.) -/
theorem claim_C9 (enzyme : Option String) (h1 : enzyme ≠ none)
    (h2 : enzyme ≠ some trypsinStr) :
    (∀ (st : AddSt) (pi : List Char × Nat), canonStep enzyme st pi = .error enzymeErrMsg) ∧
    (∀ (proteome : List (List Char)) (strata : PeptideStrata) (rng : Rng),
      proteome ≠ [] → strata.canonical ≠ [] →
        add_sequences proteome strata enzyme rng = .error enzymeErrMsg) := by
  have hstep : ∀ (st : AddSt) (pi : List Char × Nat),
      canonStep enzyme st pi = .error enzymeErrMsg := by
    intro st pi
    obtain ⟨e, rfl⟩ : ∃ e, enzyme = some e := by
      cases enzyme with
      | none => exact absurd rfl h1
      | some e => exact ⟨e, rfl⟩
    have he : ¬ e = trypsinStr := fun h => h2 (by rw [h])
    obtain ⟨pep, idx⟩ := pi
    simp [canonStep, he]
  refine ⟨hstep, ?_⟩
  intro proteome strata rng hp hc
  obtain ⟨c, cs, hcc⟩ : ∃ c cs, strata.canonical = c :: cs := by
    cases hx : strata.canonical with
    | nil => exact absurd hx hc
    | cons c cs => exact ⟨c, cs, rfl⟩
  have hn : ¬ proteome.length = 0 := by
    simpa [List.length_eq_zero] using hp
  simp [add_sequences, get_insert_inds, hn, hcc, drawIndexList, List.zip,
    List.zipWith, canonPass, hstep, bind, Except.bind]

/-- Counterexample to claim C9 as stated: with an empty canonical stratum
the unrecognised enzyme `'chymotrypsin'` is never inspected and
`add_sequences` returns normally instead of raising. -/
theorem claim_C9_counterexample :
    add_sequences [PROTEIN_SEQ] ⟨[], [], []⟩ (some ("chymotrypsin")) rng0 =
      .ok ([PROTEIN_SEQ], [], [], rng0) := rfl

/-- Witness for claim C9: a concrete bad enzyme, proteome and strata. -/
theorem claim_C9_witness :
    add_sequences [PROTEIN_SEQ] ⟨[pepHAPPY], [], []⟩ (some ("chymotrypsin")) rng0 =
      .error enzymeErrMsg :=
  (claim_C9 (some ("chymotrypsin")) (by simp) (by simp [trypsinStr])).2
    [PROTEIN_SEQ] ⟨[pepHAPPY], [], []⟩ rng0 (by simp) (by simp)

/-! ## Claim C10 — trans-spliced splice-site draw -/

/-- Claim C10: a trans-spliced peptide of length `< 4` makes the
splice-site draw `random.randint(2, len(peptide) - 2)` raise (empty
range) as soon as the embedding loop reaches it, for every state; for a
peptide of length `≥ 4` every draw yields a splice site `s` with
`2 ≤ s ≤ len - 2`, so both fragments have length at least 2.  The final
conjunct exercises `add_sequences` itself on a length-3 trans peptide. -/
theorem claim_C10 :
    (∀ (st : AddSt) (pep : List Char) (i1 i2 : Nat), pep.length < 4 →
      transStep st (pep, i1, i2) = .error ("ValueError: empty range for randrange()")) ∧
    (∀ (pep : List Char) (rng : Rng), 4 ≤ pep.length →
      ∃ s rng', pyRandint 2 (pep.length - 2) rng = .ok (s, rng') ∧
        2 ≤ s ∧ s ≤ pep.length - 2 ∧
        2 ≤ (pep.take s).length ∧ 2 ≤ (pep.drop s).length) ∧
    (add_sequences [PROTEIN_SEQ, pepHAPPY] ⟨[], [], [['A', 'B', 'C']]⟩ none rng0 =
      .error ("ValueError: empty range for randrange()")) := by
  refine ⟨?_, ?_, rfl⟩
  · intro st pep i1 i2 hlen
    have h2 : 2 > pep.length - 2 := by omega
    simp [transStep, pyRandint, h2, bind, Except.bind]
  · intro pep rng hlen
    have h2 : ¬ 2 > pep.length - 2 := by omega
    refine ⟨2 + rng.next.1 % (pep.length - 2 - 2 + 1), rng.next.2, ?_, ?_, ?_, ?_, ?_⟩
    · simp [pyRandint, h2]
    · omega
    · have := Nat.mod_lt rng.next.1 (y := pep.length - 2 - 2 + 1) (by omega)
      omega
    · have := Nat.mod_lt rng.next.1 (y := pep.length - 2 - 2 + 1) (by omega)
      simp only [List.length_take]
      omega
    · have := Nat.mod_lt rng.next.1 (y := pep.length - 2 - 2 + 1) (by omega)
      simp only [List.length_drop]
      omega

/-- Witness for claim C10 at a length-3 and a length-4 peptide. -/
theorem claim_C10_witness :
    transStep ⟨[PROTEIN_SEQ], [], [], rng0⟩ (['A', 'B', 'C'], 0, 1) =
      .error ("ValueError: empty range for randrange()") ∧
    (∃ s rng', pyRandint 2 ((['A', 'B', 'C', 'D'] : List Char).length - 2) rng0 = .ok (s, rng') ∧
      2 ≤ s ∧ s ≤ (['A', 'B', 'C', 'D'] : List Char).length - 2 ∧
      2 ≤ ((['A', 'B', 'C', 'D'] : List Char).take s).length ∧
      2 ≤ ((['A', 'B', 'C', 'D'] : List Char).drop s).length) :=
  ⟨claim_C10.1 ⟨[PROTEIN_SEQ], [], [], rng0⟩ ['A', 'B', 'C'] 0 1 (by decide),
   claim_C10.2.1 ['A', 'B', 'C', 'D'] rng0 (by decide)⟩

/-! ## Claim C8 — bounded repair loop -/

lemma repairLoop_calls_le (enzyme : Option String) :
    ∀ (fuel idx : Nat) (df : List PepRecord) (proteome : List (List Char))
      (ids : List Int) (rng : Rng),
      (repairLoop enzyme fuel idx df proteome ids rng).2 ≤ fuel := by
  intro fuel
  induction fuel with
  | zero => intro idx df proteome ids rng; simp [repairLoop]
  | succ n ih =>
    intro idx df proteome ids rng
    simp only [repairLoop]
    split
    · simp
    · cases h : check_sequences df proteome (pySetInt ids) enzyme idx rng with
      | error e => simp
      | ok res =>
        obtain ⟨df', proteome', newIds, rng'⟩ := res
        simp only []
        split
        · simp
        · have := ih (idx + 1) df' proteome' newIds rng'
          simp only []
          omega

/-- Claim C8 (code_bug evaluation): the repair loop of
`add_seqs_to_proteome` performs at most 30 `check_sequences` calls for
every input (it stops as soon as a pass marks nothing newly modified, and
otherwise after the pass at `idx == 30`); but a pass is not error-free — on
the first cis-spliced row it calls `check_cis_present` without the required
`max_intervening` argument, so a run with any cis-spliced peptide aborts
with a `TypeError` instead of handing the proteome on. -/
theorem claim_C8 :
    (∀ (cleanedProteome : List (List Char)) (strata : PeptideStrata)
      (enzyme : Option String) (rng : Rng),
      (add_seqs_to_proteome cleanedProteome strata enzyme rng).2 ≤ 30) ∧
    ((add_seqs_to_proteome [PROTEIN_SEQ] ⟨[], [pepTIRED], []⟩ none rng0).1 =
      .error ("TypeError: check_cis_present() missing 1 required positional argument: max_intervening")) := by
  constructor
  · intro cleanedProteome strata enzyme rng
    unfold add_seqs_to_proteome
    cases h : add_sequences cleanedProteome strata enzyme rng with
    | error e => simp
    | ok res =>
      obtain ⟨proteome, df, ids, rng'⟩ := res
      simpa using repairLoop_calls_le enzyme 30 1 df proteome (ids.map fun n => (n : Int)) rng'
  · rfl

/-! ## Claim C4 — final-validation rule for canonical peptides -/

/-- Claim C4 (amended): the final validator accepts a canonical-stratum row
exactly when the (enzyme-prefixed) peptide occurs contiguously in its
recorded protein; occurrences elsewhere in the proteome and multiple
occurrences are not inspected, so acceptance does not imply exclusivity. -/
theorem claim_C4 (row : PepRecord) (proteome : List (List Char)) (hasCis : Bool)
    (enzyme : Option String) (prot : List Char)
    (hst : row.stratum = CANONICAL_KEY)
    (hidx : pyIndex proteome row.proteinIdx = .ok prot) :
    (check_assignment row proteome hasCis enzyme = .ok true ↔
      isSubstringOf (if enzyme = some trypsinStr then 'K' :: row.peptide else row.peptide)
        prot = true) := by
  by_cases he : enzyme = some trypsinStr
  · rw [if_pos he]
    cases hsub : isSubstringOf ('K' :: row.peptide) prot <;>
      simp [check_assignment, hst, hidx, he, bind, Except.bind, hsub]
  · rw [if_neg he]
    cases hsub : isSubstringOf row.peptide prot <;>
      simp [check_assignment, hst, hidx, he, bind, Except.bind, hsub]

/-- Counterexample to claim C4 as stated: `'HAPPY'` occurs in both proteins
of the proteome (two (protein, position) occurrences in total), yet the
canonical row recording protein 0 is accepted by `check_assignment` — the
validator never checks other proteins or multiplicity for canonical rows. -/
theorem claim_C4_counterexample :
    check_assignment
        { peptide := pepHAPPY, proteinIdx := 0, stratum := CANONICAL_KEY,
          frag1 := none, frag2 := none }
        [['A', 'H', 'A', 'P', 'P', 'Y', 'B'], ['C', 'H', 'A', 'P', 'P', 'Y', 'D']]
        false none = .ok true ∧
    totalOccurrences pepHAPPY
        [['A', 'H', 'A', 'P', 'P', 'Y', 'B'], ['C', 'H', 'A', 'P', 'P', 'Y', 'D']] = 2 :=
  ⟨rfl, by decide⟩

/-- Witness for claim C4 at a concrete canonical row. -/
theorem claim_C4_witness :
    check_assignment
        { peptide := pepHAPPY, proteinIdx := 0, stratum := CANONICAL_KEY,
          frag1 := none, frag2 := none }
        [['A', 'H', 'A', 'P', 'P', 'Y', 'B'], ['C', 'H', 'A', 'P', 'P', 'Y', 'D']]
        false none = .ok true ↔
      isSubstringOf (if (none : Option String) = some trypsinStr then 'K' :: pepHAPPY else pepHAPPY)
        ['A', 'H', 'A', 'P', 'P', 'Y', 'B'] = true :=
  claim_C4
    { peptide := pepHAPPY, proteinIdx := 0, stratum := CANONICAL_KEY,
      frag1 := none, frag2 := none }
    [['A', 'H', 'A', 'P', 'P', 'Y', 'B'], ['C', 'H', 'A', 'P', 'P', 'Y', 'D']]
    false none ['A', 'H', 'A', 'P', 'P', 'Y', 'B'] rfl rfl

/-! ## Claim C6 — scrubbing properties of `remove_substring` -/

lemma prefixOf_nil_of_ne {sub : List Char} (h : sub ≠ []) :
    sub.isPrefixOf ([] : List Char) = false := by
  cases sub with
  | nil => exact absurd rfl h
  | cons a as => rfl

lemma prefixOf_cons_iff {a : Char} {l : List Char} {b : Char} {m : List Char} :
    (a :: l).isPrefixOf (b :: m) = true ↔ a = b ∧ l.isPrefixOf m = true := by
  simp [List.isPrefixOf, Bool.and_eq_true, beq_iff_eq]

lemma length_le_of_prefixOf {l m : List Char} (h : l.isPrefixOf m = true) :
    l.length ≤ m.length :=
  (prefixOf_iff.mp h).length_le

lemma sub_length_pos {sub : List Char} (h : sub ≠ []) : 1 ≤ sub.length := by
  cases sub with
  | nil => exact absurd rfl h
  | cons a as => simp

/-- If every filler character avoids the characters of `sub`, prepending
the filler to a `sub`-free list keeps it `sub`-free. -/
lemma not_substring_append {sub fill R : List Char} (hd : ∀ c ∈ fill, c ∉ sub)
    (hne : sub ≠ []) (hR : isSubstringOf sub R = false) :
    isSubstringOf sub (fill ++ R) = false := by
  induction fill with
  | nil => simpa
  | cons a fl ih =>
    have ha : a ∉ sub := hd a (List.mem_cons_self a fl)
    have ih' := ih fun c hc => hd c (List.mem_cons_of_mem a hc)
    rw [List.cons_append, isSubstringOf_cons, Bool.or_eq_false_iff]
    refine ⟨?_, ih'⟩
    cases hq : sub with
    | nil => exact absurd hq hne
    | cons s0 stail =>
      by_contra hp
      rw [Bool.not_eq_false] at hp
      have he : s0 = a := (prefixOf_cons_iff.mp hp).1
      apply ha
      rw [hq, ← he]
      exact List.mem_cons_self s0 stail

/-- Any list made of `sub`-characters that is a prefix of
`pyReplaceAux sub fill fuel t` is already a prefix of `t` (the filler is
non-empty and character-disjoint from `sub`, so a prefix of the output can
never enter a replaced region). -/
lemma prefixOf_pyReplaceAux {sub fill : List Char} (hne : sub ≠ []) (hfill : fill ≠ [])
    (hd : ∀ c ∈ fill, c ∉ sub) :
    ∀ (fuel : Nat) (t sub1 : List Char), (∀ x ∈ sub1, x ∈ sub) →
      sub1.isPrefixOf (pyReplaceAux sub fill fuel t) = true →
      sub1.isPrefixOf t = true := by
  intro fuel t
  induction fuel, t using pyReplaceAux.induct sub fill with
  | case1 fuel' hs => exact absurd hs hne
  | case2 fuel' hs =>
    intro sub1 hchars hp
    simpa [pyReplaceAux, hne] using hp
  | case3 c t =>
    intro sub1 hchars hp
    simpa [pyReplaceAux] using hp
  | case4 fuel' c t hcond ih =>
    intro sub1 hchars hp
    cases sub1 with
    | nil => rfl
    | cons e rest =>
      exfalso
      simp only [pyReplaceAux, if_pos hcond] at hp
      cases hq : fill with
      | nil => exact absurd hq hfill
      | cons f0 fl =>
        rw [hq, List.cons_append] at hp
        have he : e = f0 := (prefixOf_cons_iff.mp hp).1
        have hef : e ∈ fill := by rw [hq, ← he]; exact List.mem_cons_self e fl
        exact hd e hef (hchars e (List.mem_cons_self e rest))
  | case5 fuel' c t hcond hs ih =>
    exact absurd hs hne
  | case6 fuel' c t hcond hs ih =>
    intro sub1 hchars hp
    cases sub1 with
    | nil => rfl
    | cons e rest =>
      simp only [pyReplaceAux, if_neg hcond, if_neg hs] at hp
      obtain ⟨he, hrest⟩ := prefixOf_cons_iff.mp hp
      exact prefixOf_cons_iff.mpr
        ⟨he, ih rest (fun x hx => hchars x (List.mem_cons_of_mem e hx)) hrest⟩

/-- The scrubbed list contains no occurrence of `sub` at all, provided the
filler has the length of `sub` (hence is non-empty) and avoids its
characters. -/
lemma substring_pyReplaceAux_false {sub fill : List Char} (hne : sub ≠ [])
    (hlen : fill.length = sub.length) (hd : ∀ c ∈ fill, c ∉ sub) :
    ∀ (fuel : Nat) (s : List Char), s.length ≤ fuel →
      isSubstringOf sub (pyReplaceAux sub fill fuel s) = false := by
  have hfill : fill ≠ [] := by
    intro h
    subst h
    exact hne (List.length_eq_zero.mp (by simpa using hlen.symm))
  intro fuel s
  induction fuel, s using pyReplaceAux.induct sub fill with
  | case1 fuel' hs => exact absurd hs hne
  | case2 fuel' hs =>
    intro _
    simp only [pyReplaceAux, if_neg hne]
    exact prefixOf_nil_of_ne hne
  | case3 c t =>
    intro hf
    simp at hf
  | case4 fuel' c t hcond ih =>
    intro hf
    simp only [pyReplaceAux, if_pos hcond]
    apply not_substring_append hd hne
    apply ih
    have h1 : 1 ≤ sub.length := sub_length_pos hne
    simp only [List.length_drop, List.length_cons]
    simp only [List.length_cons] at hf
    omega
  | case5 fuel' c t hcond hs ih =>
    exact absurd hs hne
  | case6 fuel' c t hcond hs ih =>
    intro hf
    simp only [pyReplaceAux, if_neg hcond, if_neg hs]
    rw [isSubstringOf_cons, Bool.or_eq_false_iff]
    have hft : t.length ≤ fuel' := by
      simp only [List.length_cons] at hf
      omega
    refine ⟨?_, ih hft⟩
    by_contra hp
    rw [Bool.not_eq_false] at hp
    obtain ⟨s0, stail, rfl⟩ : ∃ s0 stail, sub = s0 :: stail := by
      cases sub with
      | nil => exact absurd rfl hne
      | cons s0 stail => exact ⟨s0, stail, rfl⟩
    obtain ⟨he, hrest⟩ := prefixOf_cons_iff.mp hp
    have hrt : stail.isPrefixOf t = true := by
      apply prefixOf_pyReplaceAux hne hfill hd fuel' t stail
      · intro x hx
        exact List.mem_cons_of_mem s0 hx
      · exact hrest
    exact hcond ⟨hne, prefixOf_cons_iff.mpr ⟨he, hrt⟩⟩

/-- When `sub` does not occur, scrubbing is the identity (for any filler
and any fuel). -/
lemma pyReplaceAux_of_not_substring {sub fill : List Char} :
    ∀ (fuel : Nat) (s : List Char), isSubstringOf sub s = false →
      pyReplaceAux sub fill fuel s = s := by
  intro fuel s
  induction fuel, s using pyReplaceAux.induct sub fill with
  | case1 fuel' hs =>
    intro h
    subst hs
    simp [isSubstringOf_nil_left] at h
  | case2 fuel' hs =>
    intro h
    simp [pyReplaceAux, hs]
  | case3 c t =>
    intro h
    rfl
  | case4 fuel' c t hcond ih =>
    intro h
    exfalso
    have := isSubstringOf_of_prefixOf hcond.2
    rw [h] at this
    cases this
  | case5 fuel' c t hcond hs ih =>
    intro h
    subst hs
    simp [isSubstringOf_nil_left] at h
  | case6 fuel' c t hcond hs ih =>
    intro h
    rw [isSubstringOf_cons, Bool.or_eq_false_iff] at h
    simp only [pyReplaceAux, if_neg hcond, if_neg hs]
    rw [ih h.2]

/-- Scrubbing with a filler of the substring's length preserves the list
length. -/
lemma pyReplaceAux_length {sub fill : List Char} (hlen : fill.length = sub.length) :
    ∀ (fuel : Nat) (s : List Char), s.length ≤ fuel →
      (pyReplaceAux sub fill fuel s).length = s.length := by
  intro fuel s
  induction fuel, s using pyReplaceAux.induct sub fill with
  | case1 fuel' hs =>
    intro _
    subst hs
    simp only [pyReplaceAux, if_pos rfl]
    simpa using hlen
  | case2 fuel' hs =>
    intro _
    simp [pyReplaceAux, hs]
  | case3 c t =>
    intro hf
    simp at hf
  | case4 fuel' c t hcond ih =>
    intro hf
    have hsl : sub.length ≤ (c :: t).length := length_le_of_prefixOf hcond.2
    have h1 : 1 ≤ sub.length := sub_length_pos hcond.1
    have hfd : (List.drop sub.length (c :: t)).length ≤ fuel' := by
      simp only [List.length_drop, List.length_cons]
      simp only [List.length_cons] at hf
      omega
    simp only [pyReplaceAux, if_pos hcond, List.length_append, ih hfd,
      List.length_drop, List.length_cons]
    simp only [List.length_cons] at hsl
    omega
  | case5 fuel' c t hcond hs ih =>
    intro hf
    have hft : t.length ≤ fuel' := by
      simp only [List.length_cons] at hf
      omega
    subst hs
    have hfe : fill = [] := List.length_eq_zero.mp (by simpa using hlen)
    subst hfe
    simp [pyReplaceAux, hcond, ih hft]
  | case6 fuel' c t hcond hs ih =>
    intro hf
    have hft : t.length ≤ fuel' := by
      simp only [List.length_cons] at hf
      omega
    simp only [pyReplaceAux, if_neg hcond, if_neg hs, List.length_cons, ih hft]

lemma randFiller_length : ∀ (n : Nat) (r : Rng), ((randFiller n r).1).length = n := by
  intro n
  induction n with
  | zero => intro r; rfl
  | succ m ih =>
    intro r
    simp [randFiller, ih]

/-- Claim C6 (amended): `remove_substring` returns the sequence unchanged
when the substring does not occur, and always preserves the sequence length
(the filler is drawn with the substring's length); the scrubbed result is
free of the substring whenever the drawn filler avoids the substring's
characters — but not for every filler outcome, since the random filler can
recreate an occurrence (see the counterexample). -/
theorem claim_C6 (s sub : List Char) (rng : Rng) (fill : List Char) :
    (isSubstringOf sub s = false → (remove_substring s sub rng).1 = s) ∧
    ((remove_substring s sub rng).1).length = s.length ∧
    (sub ≠ [] → fill.length = sub.length → (∀ c ∈ fill, c ∉ sub) →
      isSubstringOf sub (pyReplace s sub fill) = false) := by
  refine ⟨?_, ?_, ?_⟩
  · intro h
    simp only [remove_substring, pyReplace]
    exact pyReplaceAux_of_not_substring s.length s h
  · simp only [remove_substring, pyReplace]
    exact pyReplaceAux_length (randFiller_length sub.length rng) s.length s le_rfl
  · intro hne hlen hd
    exact substring_pyReplaceAux_false hne hlen hd s.length s le_rfl

/-- Counterexample to claim C6 as stated: scrubbing `'A'` from `'A'` can
draw the filler `'A'` itself, and the result still contains the substring —
the "no literal occurrence" guarantee does not hold for every outcome of
the random filler draws. -/
theorem claim_C6_counterexample :
    isSubstringOf ['A'] ((remove_substring ['A'] ['A'] rng0).1) = true := by
  decide

/-- Witness for claim C6 at concrete sequences. -/
theorem claim_C6_witness :
    (remove_substring ['X', 'Y'] ['T', 'T'] rng0).1 = ['X', 'Y'] ∧
    ((remove_substring ['M', 'I', 'T', 'T', 'A', 'G'] ['T', 'T'] rng0).1).length =
      (['M', 'I', 'T', 'T', 'A', 'G'] : List Char).length ∧
    isSubstringOf ['T', 'T']
      (pyReplace ['M', 'I', 'T', 'T', 'A', 'G'] ['T', 'T'] ['A', 'A']) = false :=
  ⟨(claim_C6 ['X', 'Y'] ['T', 'T'] rng0 ['A', 'A']).1 (by decide),
   (claim_C6 ['M', 'I', 'T', 'T', 'A', 'G'] ['T', 'T'] rng0 ['A', 'A']).2.1,
   (claim_C6 ['M', 'I', 'T', 'T', 'A', 'G'] ['T', 'T'] rng0 ['A', 'A']).2.2
     (by decide) (by decide) (by decide)⟩

/-! ## Claim C1 — fixed-point postcondition of the proteome cleaner

The invariant: a protein index that a `remove_matches` pass leaves outside
its `modified_ids` output was checked against every peptide while its
protein stayed unchanged, so that protein is free of every ground-truth
peptide; the cleaning loop terminates exactly when a pass records nothing,
at which point every protein is clean. -/

lemma getD_set_ne (l : List (List Char)) (j i : Nat) (v : List Char) (h : j ≠ i) :
    (l.set j v).getD i [] = l.getD i [] := by
  simp [List.getD_eq_getElem?_getD, List.getElem?_set_ne h]

lemma scrubAt_mods (st : RMSt) (idx : Nat) (sub : List Char) :
    (scrubAt st idx sub).mods = st.mods ++ [idx] := rfl

lemma scrubAt_getD_ne (st : RMSt) (idx : Nat) (sub : List Char) {i : Nat} (h : i ≠ idx) :
    (scrubAt st idx sub).proteome.getD i [] = st.proteome.getD i [] := by
  simp only [scrubAt]
  exact getD_set_ne _ _ _ _ (Ne.symm h)

lemma scrubAt_length (st : RMSt) (idx : Nat) (sub : List Char) :
    (scrubAt st idx sub).proteome.length = st.proteome.length := by
  simp [scrubAt]

lemma rmCisScrubs_mods_extend (idx : Nat) :
    ∀ (rs : List (List Char)) (st : RMSt),
      ∃ ex, (rmCisScrubs idx rs st).mods = st.mods ++ ex
  | [], st => ⟨[], by simp [rmCisScrubs]⟩
  | r :: rest, st => by
    obtain ⟨ex, hex⟩ := rmCisScrubs_mods_extend idx rest (scrubAt st idx r)
    exact ⟨[idx] ++ ex, by simp [rmCisScrubs, hex, scrubAt_mods]⟩

lemma rmCisScrubs_mem (idx : Nat) (r : List Char) (rs : List (List Char)) (st : RMSt) :
    idx ∈ (rmCisScrubs idx (r :: rs) st).mods := by
  obtain ⟨ex, hex⟩ := rmCisScrubs_mods_extend idx rs (scrubAt st idx r)
  simp [rmCisScrubs, hex, scrubAt_mods]

lemma rmCisScrubs_getD_ne (idx : Nat) {i : Nat} (h : i ≠ idx) :
    ∀ (rs : List (List Char)) (st : RMSt),
      (rmCisScrubs idx rs st).proteome.getD i [] = st.proteome.getD i []
  | [], st => rfl
  | r :: rest, st => by
    rw [rmCisScrubs, rmCisScrubs_getD_ne idx h rest (scrubAt st idx r),
      scrubAt_getD_ne st idx r h]

lemma rmCisScrubs_length (idx : Nat) :
    ∀ (rs : List (List Char)) (st : RMSt),
      (rmCisScrubs idx rs st).proteome.length = st.proteome.length
  | [], st => rfl
  | r :: rest, st => by
    rw [rmCisScrubs, rmCisScrubs_length idx rest (scrubAt st idx r),
      scrubAt_length st idx r]

lemma rmIdxStep_cis_cases (cisActive : Bool) (pairs : List (List Char × List Char))
    (idx : Nat) (st1 : RMSt) (motive : RMSt → Prop) (hbase : motive st1)
    (hscrub : ∀ rs, checkCis (st1.proteome.getD idx []) pairs = some rs →
      motive (rmCisScrubs idx rs st1)) :
    motive (if cisActive then
        match checkCis (st1.proteome.getD idx []) pairs with
        | some replaceStrings => rmCisScrubs idx replaceStrings st1
        | none => st1
      else st1) := by
  cases cisActive with
  | false => exact hbase
  | true =>
    cases hcc : checkCis (st1.proteome.getD idx []) pairs with
    | none => simpa [hcc] using hbase
    | some rs => simpa [hcc] using hscrub rs hcc

lemma rmIdxStep_mods_extend (pep : List Char) (cisActive : Bool)
    (pairs : List (List Char × List Char)) (st : RMSt) (idx : Nat) :
    ∃ ex, (rmIdxStep pep cisActive pairs st idx).mods = st.mods ++ ex := by
  unfold rmIdxStep
  have hst1 : ∃ ex1,
      (if isSubstringOf pep (st.proteome.getD idx []) = true then
        scrubAt st idx pep else st).mods = st.mods ++ ex1 := by
    split
    · exact ⟨[idx], rfl⟩
    · exact ⟨[], by simp⟩
  obtain ⟨ex1, hex1⟩ := hst1
  apply rmIdxStep_cis_cases cisActive pairs idx _ (fun st2 => ∃ ex, st2.mods = st.mods ++ ex)
  · exact ⟨ex1, hex1⟩
  · intro rs hcc
    obtain ⟨ex2, hex2⟩ := rmCisScrubs_mods_extend idx rs _
    exact ⟨ex1 ++ ex2, by rw [hex2, hex1, List.append_assoc]⟩

lemma rmIdxStep_getD_ne (pep : List Char) (cisActive : Bool)
    (pairs : List (List Char × List Char)) (st : RMSt) (idx : Nat) {i : Nat} (h : i ≠ idx) :
    (rmIdxStep pep cisActive pairs st idx).proteome.getD i [] = st.proteome.getD i [] := by
  unfold rmIdxStep
  have hst1 : (if isSubstringOf pep (st.proteome.getD idx []) = true then
      scrubAt st idx pep else st).proteome.getD i [] = st.proteome.getD i [] := by
    split
    · exact scrubAt_getD_ne st idx pep h
    · rfl
  apply rmIdxStep_cis_cases cisActive pairs idx _
    (fun st2 => st2.proteome.getD i [] = st.proteome.getD i [])
  · exact hst1
  · intro rs hcc
    rw [rmCisScrubs_getD_ne idx h rs _, hst1]

lemma rmIdxStep_length (pep : List Char) (cisActive : Bool)
    (pairs : List (List Char × List Char)) (st : RMSt) (idx : Nat) :
    (rmIdxStep pep cisActive pairs st idx).proteome.length = st.proteome.length := by
  unfold rmIdxStep
  have hst1 : (if isSubstringOf pep (st.proteome.getD idx []) = true then
      scrubAt st idx pep else st).proteome.length = st.proteome.length := by
    split
    · exact scrubAt_length st idx pep
    · rfl
  apply rmIdxStep_cis_cases cisActive pairs idx _
    (fun st2 => st2.proteome.length = st.proteome.length)
  · exact hst1
  · intro rs hcc
    rw [rmCisScrubs_length idx rs _, hst1]

/-- If a step leaves `idx` outside the recorded modifications then nothing
happened: the state is unchanged and the contiguous check was negative. -/
lemma rmIdxStep_not_mem (pep : List Char) (cisActive : Bool)
    (pairs : List (List Char × List Char)) (st : RMSt) (idx : Nat)
    (h : idx ∉ (rmIdxStep pep cisActive pairs st idx).mods) :
    rmIdxStep pep cisActive pairs st idx = st ∧
    isSubstringOf pep (st.proteome.getD idx []) = false := by
  have hext : ∃ ex, (rmIdxStep pep cisActive pairs st idx).mods =
      (if isSubstringOf pep (st.proteome.getD idx []) = true then
        scrubAt st idx pep else st).mods ++ ex := by
    unfold rmIdxStep
    apply rmIdxStep_cis_cases cisActive pairs idx _
      (fun st2 => ∃ ex, st2.mods =
        (if isSubstringOf pep (st.proteome.getD idx []) = true then
          scrubAt st idx pep else st).mods ++ ex)
    · exact ⟨[], by simp⟩
    · intro rs hcc
      exact rmCisScrubs_mods_extend idx rs _
  have hsub : isSubstringOf pep (st.proteome.getD idx []) = false := by
    by_contra hx
    rw [Bool.not_eq_false] at hx
    obtain ⟨ex, hex⟩ := hext
    rw [if_pos hx, scrubAt_mods] at hex
    exact h (by rw [hex]; simp)
  have hst1 : (if isSubstringOf pep (st.proteome.getD idx []) = true then
      scrubAt st idx pep else st) = st := by
    rw [hsub]
    simp
  have h' : idx ∉ (if cisActive then
      match checkCis (st.proteome.getD idx []) pairs with
      | some replaceStrings => rmCisScrubs idx replaceStrings st
      | none => st
    else st).mods := by
    unfold rmIdxStep at h
    rw [hst1] at h
    exact h
  refine ⟨?_, hsub⟩
  unfold rmIdxStep
  rw [hst1]
  exact rmIdxStep_cis_cases cisActive pairs idx st (fun st2 => idx ∉ st2.mods → st2 = st)
    (fun _ => rfl)
    (fun rs hcc => by
      cases rs with
      | nil => intro _; rfl
      | cons r rs' =>
        intro hnm
        exact absurd (rmCisScrubs_mem idx r rs' st) hnm) h'

lemma rmIdsLoop_mods_extend (pep : List Char) (cisActive : Bool)
    (pairs : List (List Char × List Char)) :
    ∀ (ids : List Nat) (st : RMSt),
      ∃ ex, (rmIdsLoop pep cisActive pairs ids st).mods = st.mods ++ ex
  | [], st => ⟨[], by simp [rmIdsLoop]⟩
  | idx :: rest, st => by
    obtain ⟨ex1, hex1⟩ := rmIdxStep_mods_extend pep cisActive pairs st idx
    obtain ⟨ex2, hex2⟩ := rmIdsLoop_mods_extend pep cisActive pairs rest
      (rmIdxStep pep cisActive pairs st idx)
    exact ⟨ex1 ++ ex2, by rw [rmIdsLoop, hex2, hex1, List.append_assoc]⟩

lemma rmIdsLoop_length (pep : List Char) (cisActive : Bool)
    (pairs : List (List Char × List Char)) :
    ∀ (ids : List Nat) (st : RMSt),
      (rmIdsLoop pep cisActive pairs ids st).proteome.length = st.proteome.length
  | [], st => rfl
  | idx :: rest, st => by
    rw [rmIdsLoop, rmIdsLoop_length pep cisActive pairs rest _,
      rmIdxStep_length pep cisActive pairs st idx]

/-- Core invariant of one peptide's scan: an index the scan leaves
unrecorded keeps its protein unchanged, and if it was scanned the
contiguous check was negative on that (unchanged) protein. -/
lemma rmIdsLoop_spec (pep : List Char) (cisActive : Bool)
    (pairs : List (List Char × List Char)) :
    ∀ (ids : List Nat) (st : RMSt) (i : Nat),
      i ∉ (rmIdsLoop pep cisActive pairs ids st).mods →
      (rmIdsLoop pep cisActive pairs ids st).proteome.getD i [] = st.proteome.getD i [] ∧
      (i ∈ ids → isSubstringOf pep (st.proteome.getD i []) = false)
  | [], st, i => by
    intro h
    exact ⟨rfl, by simp⟩
  | idx :: rest, st, i => by
    intro h
    rw [rmIdsLoop] at h ⊢
    have hnotst2 : i ∉ (rmIdxStep pep cisActive pairs st idx).mods := by
      obtain ⟨ex, hex⟩ := rmIdsLoop_mods_extend pep cisActive pairs rest
        (rmIdxStep pep cisActive pairs st idx)
      intro hx
      exact h (by rw [hex]; exact List.mem_append_left _ hx)
    have ih := rmIdsLoop_spec pep cisActive pairs rest
      (rmIdxStep pep cisActive pairs st idx) i h
    by_cases hii : i = idx
    · subst hii
      obtain ⟨heq, hsub⟩ := rmIdxStep_not_mem pep cisActive pairs st i hnotst2
      rw [heq] at ih ⊢
      refine ⟨ih.1, ?_⟩
      intro hmem
      rcases List.mem_cons.mp hmem with h1 | h1
      · exact hsub
      · exact ih.2 h1
    · have hg := rmIdxStep_getD_ne pep cisActive pairs st idx hii
      refine ⟨by rw [ih.1, hg], ?_⟩
      intro hmem
      rcases List.mem_cons.mp hmem with h1 | h1
      · exact absurd h1 hii
      · have h2 := ih.2 h1
        rwa [hg] at h2

lemma rmPepsLoop_mods_extend (cisNonempty : Bool) (key : String) (ids : List Nat) :
    ∀ (peps : List (List Char)) (st : RMSt),
      ∃ ex, (rmPepsLoop cisNonempty key ids peps st).mods = st.mods ++ ex
  | [], st => ⟨[], by simp [rmPepsLoop]⟩
  | pep :: rest, st => by
    obtain ⟨ex1, hex1⟩ := rmIdsLoop_mods_extend pep
      (cisNonempty && !(key == CANONICAL_KEY)) (generate_pairs pep) ids st
    obtain ⟨ex2, hex2⟩ := rmPepsLoop_mods_extend cisNonempty key ids rest
      (rmIdsLoop pep (cisNonempty && !(key == CANONICAL_KEY)) (generate_pairs pep) ids st)
    exact ⟨ex1 ++ ex2, by rw [rmPepsLoop, hex2, hex1, List.append_assoc]⟩

lemma rmPepsLoop_length (cisNonempty : Bool) (key : String) (ids : List Nat) :
    ∀ (peps : List (List Char)) (st : RMSt),
      (rmPepsLoop cisNonempty key ids peps st).proteome.length = st.proteome.length
  | [], st => rfl
  | pep :: rest, st => by
    rw [rmPepsLoop, rmPepsLoop_length cisNonempty key ids rest _, rmIdsLoop_length]

lemma rmPepsLoop_spec (cisNonempty : Bool) (key : String) (ids : List Nat) :
    ∀ (peps : List (List Char)) (st : RMSt) (i : Nat),
      i ∉ (rmPepsLoop cisNonempty key ids peps st).mods →
      (rmPepsLoop cisNonempty key ids peps st).proteome.getD i [] = st.proteome.getD i [] ∧
      (i ∈ ids → ∀ pep ∈ peps, isSubstringOf pep (st.proteome.getD i []) = false)
  | [], st, i => by
    intro h
    exact ⟨rfl, by simp⟩
  | pep :: rest, st, i => by
    intro h
    rw [rmPepsLoop] at h ⊢
    have hnot1 : i ∉ (rmIdsLoop pep (cisNonempty && !(key == CANONICAL_KEY))
        (generate_pairs pep) ids st).mods := by
      obtain ⟨ex, hex⟩ := rmPepsLoop_mods_extend cisNonempty key ids rest _
      intro hx
      exact h (by rw [hex]; exact List.mem_append_left _ hx)
    have h1 := rmIdsLoop_spec pep (cisNonempty && !(key == CANONICAL_KEY))
      (generate_pairs pep) ids st i hnot1
    have ih := rmPepsLoop_spec cisNonempty key ids rest _ i h
    refine ⟨by rw [ih.1, h1.1], ?_⟩
    intro hmem pep' hpep'
    rcases List.mem_cons.mp hpep' with h2 | h2
    · subst h2
      exact h1.2 hmem
    · have h3 := ih.2 hmem pep' h2
      rwa [h1.1] at h3

lemma rmStrataLoop_mods_extend (cisNonempty : Bool) (ids : List Nat) :
    ∀ (items : List (String × List (List Char))) (st : RMSt),
      ∃ ex, (rmStrataLoop cisNonempty ids items st).mods = st.mods ++ ex
  | [], st => ⟨[], by simp [rmStrataLoop]⟩
  | (key, peps) :: rest, st => by
    obtain ⟨ex1, hex1⟩ := rmPepsLoop_mods_extend cisNonempty key ids peps st
    obtain ⟨ex2, hex2⟩ := rmStrataLoop_mods_extend cisNonempty ids rest
      (rmPepsLoop cisNonempty key ids peps st)
    exact ⟨ex1 ++ ex2, by rw [rmStrataLoop, hex2, hex1, List.append_assoc]⟩

lemma rmStrataLoop_length (cisNonempty : Bool) (ids : List Nat) :
    ∀ (items : List (String × List (List Char))) (st : RMSt),
      (rmStrataLoop cisNonempty ids items st).proteome.length = st.proteome.length
  | [], st => rfl
  | (key, peps) :: rest, st => by
    rw [rmStrataLoop, rmStrataLoop_length cisNonempty ids rest _, rmPepsLoop_length]

lemma rmStrataLoop_spec (cisNonempty : Bool) (ids : List Nat) :
    ∀ (items : List (String × List (List Char))) (st : RMSt) (i : Nat),
      i ∉ (rmStrataLoop cisNonempty ids items st).mods →
      (rmStrataLoop cisNonempty ids items st).proteome.getD i [] = st.proteome.getD i [] ∧
      (i ∈ ids → ∀ kp ∈ items, ∀ pep ∈ kp.2,
        isSubstringOf pep (st.proteome.getD i []) = false)
  | [], st, i => by
    intro h
    exact ⟨rfl, by simp⟩
  | (key, peps) :: rest, st, i => by
    intro h
    rw [rmStrataLoop] at h ⊢
    have hnot1 : i ∉ (rmPepsLoop cisNonempty key ids peps st).mods := by
      obtain ⟨ex, hex⟩ := rmStrataLoop_mods_extend cisNonempty ids rest _
      intro hx
      exact h (by rw [hex]; exact List.mem_append_left _ hx)
    have h1 := rmPepsLoop_spec cisNonempty key ids peps st i hnot1
    have ih := rmStrataLoop_spec cisNonempty ids rest _ i h
    refine ⟨by rw [ih.1, h1.1], ?_⟩
    intro hmem kp hkp pep hpep
    rcases List.mem_cons.mp hkp with h2 | h2
    · subst h2
      exact h1.2 hmem pep hpep
    · have h3 := ih.2 hmem kp h2 pep hpep
      rwa [h1.1] at h3

lemma mem_strataList_of_mem_allPeps {strata : PeptideStrata} {pep : List Char}
    (h : pep ∈ allPeps strata) :
    ∃ kp ∈ strataList strata, pep ∈ kp.2 := by
  simp only [allPeps, List.mem_append] at h
  rcases h with (h | h) | h
  · exact ⟨(CANONICAL_KEY, strata.canonical), by simp [strataList], h⟩
  · exact ⟨(CISSPLICED_KEY, strata.cisspliced), by simp [strataList], h⟩
  · exact ⟨(TRANSPLICED_KEY, strata.transspliced), by simp [strataList], h⟩

/-- Behaviour of one full `remove_matches` pass at an index it left
unrecorded. -/
lemma remove_matches_spec (proteome : List (List Char)) (strata : PeptideStrata)
    (ids : List Nat) (rng : Rng) (i : Nat)
    (h : i ∉ (remove_matches proteome strata ids rng).mods) :
    (remove_matches proteome strata ids rng).proteome.getD i [] = proteome.getD i [] ∧
    (i ∈ ids → ∀ pep ∈ allPeps strata, isSubstringOf pep (proteome.getD i []) = false) := by
  have h1 := rmStrataLoop_spec (strata.cisspliced.length != 0) ids (strataList strata)
    { proteome := proteome, mods := [], rng := rng } i h
  refine ⟨h1.1, ?_⟩
  intro hmem pep hpep
  obtain ⟨kp, hkp, hpep'⟩ := mem_strataList_of_mem_allPeps hpep
  exact h1.2 hmem kp hkp pep hpep'

lemma remove_matches_length (proteome : List (List Char)) (strata : PeptideStrata)
    (ids : List Nat) (rng : Rng) :
    (remove_matches proteome strata ids rng).proteome.length = proteome.length :=
  rmStrataLoop_length _ _ _ _

/-- The invariant carried through the cleaning loop: every in-range index
outside the worklist is already clean. -/
lemma cleanLoop_spec (strata : PeptideStrata) :
    ∀ (fuel : Nat) (proteome : List (List Char)) (ids : List Nat) (rng : Rng)
      (result : List (List Char)),
      cleanLoop strata fuel proteome ids rng = some result →
      (∀ i, i < proteome.length → i ∉ ids →
        ∀ pep ∈ allPeps strata, isSubstringOf pep (proteome.getD i []) = false) →
      ∀ pep ∈ allPeps strata, ∀ prot ∈ result, isSubstringOf pep prot = false := by
  intro fuel
  induction fuel with
  | zero =>
    intro proteome ids rng result h
    exact absurd h (by simp [cleanLoop])
  | succ n ih =>
    intro proteome ids rng result h hinv pep hpep prot hprot
    rw [cleanLoop] at h
    by_cases hids : ids = []
    · rw [if_pos hids] at h
      obtain rfl : proteome = result := by simpa using h
      obtain ⟨j, hj, rfl⟩ := List.mem_iff_getElem.mp hprot
      rw [← List.getD_eq_getElem proteome [] hj]
      exact hinv j hj (by simp [hids]) pep hpep
    · rw [if_neg hids] at h
      refine ih (remove_matches proteome strata (pySetNat ids) rng).proteome
        (remove_matches proteome strata (pySetNat ids) rng).mods
        (remove_matches proteome strata (pySetNat ids) rng).rng
        result h ?_ pep hpep prot hprot
      intro i hi hnm pep' hpep'
      have hspec := remove_matches_spec proteome strata (pySetNat ids) rng i hnm
      rw [hspec.1]
      by_cases hin : i ∈ ids
      · exact hspec.2 (by simpa [pySetNat] using hin) pep' hpep'
      · have hlen : i < proteome.length := by
          rwa [remove_matches_length] at hi
        exact hinv i hlen hin pep' hpep'

/-- Claim C1: whenever the cleaning loop of `clean_proteome` terminates (a
`remove_matches` pass records no modified protein), no ground-truth peptide
of any stratum occurs as a contiguous substring of any protein of the
returned proteome. -/
theorem claim_C1 (fuel : Nat) (fastaSequences : List (List Char))
    (strata : PeptideStrata) (rng : Rng) (result : List (List Char))
    (h : clean_proteome fuel fastaSequences strata rng = some result) :
    ∀ pep ∈ allPeps strata, ∀ prot ∈ result, isSubstringOf pep prot = false := by
  unfold clean_proteome at h
  refine cleanLoop_spec strata fuel _ _ _ result h ?_
  intro i hi hnm pep hpep
  have hspec := remove_matches_spec fastaSequences strata
    (List.range fastaSequences.length) rng i hnm
  rw [hspec.1]
  have hrange : i ∈ List.range fastaSequences.length := by
    rw [List.mem_range]
    rwa [remove_matches_length] at hi
  exact hspec.2 hrange pep hpep

/-- Witness for claim C1: cleaning `'MITTAG'` against the single canonical
peptide `'TT'` converges in two passes to `'MIAAAG'`, which is `'TT'`-free. -/
theorem claim_C1_witness :
    isSubstringOf ['T', 'T'] ['M', 'I', 'A', 'A', 'A', 'G'] = false :=
  claim_C1 2 [['M', 'I', 'T', 'T', 'A', 'G']]
    ⟨[['T', 'T']], [], []⟩ rng0 [['M', 'I', 'A', 'A', 'A', 'G']] rfl
    ['T', 'T'] (by simp [allPeps]) ['M', 'I', 'A', 'A', 'A', 'G'] (by simp)

end IBench
